import Mathlib

/-!
# The disk-backed stream cache of `xbmc/filesystem/CacheStrategy.cpp`

A shallow embedding of `CSimpleFileCache` (the Basic Cache) and of
`CDoubleCache` (the Rotating Cache), and of the properties the specification
states about them.

Conventions of the embedding.

* The data model is LP64: `size_t` and `ssize_t` are 64 bits wide, `int` and
  `unsigned int` are 32 bits wide.
* `int64_t` cursors are exact integers (`Int`): signed overflow is undefined
  behaviour in C++, so the embedding describes the executions without it.
  Conversions between integer types, which C++ does define, are explicit
  (`toInt32`, `toInt64`, `toUInt32`, `toSizeT`).
* A `uint8_t*` argument is the memory it points to, `Nat → Byte`: index `i`
  is the byte at `p[i]`.
* The storage layer and the events are collaborators of the cache. What a
  physical call returns is chosen by a script that the operation receives as
  an extra argument; an exhausted script means the storage layer performs the
  call in full.
-/

namespace XFILE

/-- One byte of cached data, a `uint8_t` -/
abbrev Byte := Fin 256

/-- The memory behind a `uint8_t*`: index `i` is the byte at `p[i]` -/
abbrev Buffer := Nat → Byte

/-- Modelled from the spec: the status code "OK" of `CacheStrategy.h`, a header
that is not among the sources; the value is the header's. -/
def CACHE_RC_OK : Int := 0

/-- Modelled from the spec: the status code "generic error" of `CacheStrategy.h`,
a header that is not among the sources; the value is the header's. -/
def CACHE_RC_ERROR : Int := -1

/-- Modelled from the spec: the status code "would block" of `CacheStrategy.h`,
a header that is not among the sources; the value is the header's. -/
def CACHE_RC_WOULD_BLOCK : Int := -2

/-- Modelled from the spec: the status code "timeout" of `CacheStrategy.h`,
a header that is not among the sources; the value is the header's. -/
def CACHE_RC_TIMEOUT : Int := -3

/-- Largest value of `ssize_t` (LP64) -/
def SSIZE_MAX : Nat := 2 ^ 63 - 1

/-- Largest value of `int` -/
def INT_MAX : Nat := 2 ^ 31 - 1

/-- Seek origin "from start" of `<cstdio>` -/
def SEEK_SET : Int := 0

/-- Seek origin "from the current offset" of `<cstdio>` -/
def SEEK_CUR : Int := 1

/-- Seek origin "from the end" of `<cstdio>` -/
def SEEK_END : Int := 2

/-- Conversion to `int`: the value modulo `2^32`, read as a signed number -/
def toInt32 (x : Int) : Int := (x + 2 ^ 31) % 2 ^ 32 - 2 ^ 31

/-- Conversion to `int64_t`: the value modulo `2^64`, read as a signed number -/
def toInt64 (x : Int) : Int := (x + 2 ^ 63) % 2 ^ 64 - 2 ^ 63

/-- Conversion to `unsigned int`: the value modulo `2^32` -/
def toUInt32 (x : Int) : Nat := (x % 2 ^ 32).toNat

/-- Conversion to `size_t`: the value modulo `2^64` -/
def toSizeT (x : Int) : Nat := (x % 2 ^ 64).toNat

/-- The first `n` bytes of a buffer, as a list -/
def bufferBytes (p : Buffer) (n : Nat) : List Byte := (List.range n).map p

/-- The buffer that holds the bytes of a list, and zero after them -/
def bufferOf (l : List Byte) : Buffer := fun i => l.getD i 0

/-- Modelled from the spec: what the storage layer does with one physical
`Read` or `Write` of the backing-file class `CacheLocalFile`, which is not among
the sources ("sequential write returning bytes-written-or-error, sequential/random
read returning bytes-read-or-error"). `error` is a failed call, `transfer k` a
call that moves at most `k` bytes. -/
inductive IoOutcome where
  | error
  | transfer (k : Nat)
  deriving DecidableEq

/-- State of a `CSimpleFileCache`: the members of the class, with the backing
file and the two events in place of the pointers to them.

`fileData` and `fileSize` are the contents and the length of the backing file,
`m_cacheFileWrite` and `m_cacheFileRead` the offsets of the two handles opened
on it, `m_hDataAvailEvent` and `m_space` whether the event is signalled. -/
structure CSimpleFileCache where
  m_nStartPosition : Int
  m_nWritePosition : Int
  m_nReadPosition : Int
  m_bEndOfInput : Bool
  m_hDataAvailEvent : Bool
  m_space : Bool
  fileData : Nat → Byte
  fileSize : Nat
  m_cacheFileWrite : Nat
  m_cacheFileRead : Nat

namespace CSimpleFileCache

/-- Modelled from the spec: a cache right after construction and a successful
`Open()` on a new temporary file. The cursors start at 0 and `end_of_input` is
clear (the initial values are in `CacheStrategy.h`, which is not among the
sources; the spec gives "its initial value 0"); the file is empty, both handles
are at offset 0, and no event is signalled. -/
def freshCache : CSimpleFileCache :=
  { m_nStartPosition := 0
    m_nWritePosition := 0
    m_nReadPosition := 0
    m_bEndOfInput := false
    m_hDataAvailEvent := false
    m_space := false
    fileData := fun _ => 0
    fileSize := 0
    m_cacheFileWrite := 0
    m_cacheFileRead := 0 }

/-- Modelled from the spec: `CacheLocalFile::Write` on the write handle, a class
that is not among the sources. A failed call returns -1 and changes nothing. A
call that moves `n` bytes copies `p[0..n)` to the file at the handle's offset,
advances the offset by `n` and returns `n`; a gap between the old end of the
file and the offset reads as zero. -/
def physWrite (c : CSimpleFileCache) (p : Buffer) (count : Nat) (o : Option IoOutcome) :
    Int × CSimpleFileCache :=
  let n : Nat :=
    match o with
    | some IoOutcome.error => 0
    | some (IoOutcome.transfer k) => min k count
    | none => count
  if o = some IoOutcome.error then (-1, c)
  else if n = 0 then (0, c)
  else
    ((n : Int),
      { c with
        fileData := fun i =>
          if c.m_cacheFileWrite ≤ i ∧ i < c.m_cacheFileWrite + n then p (i - c.m_cacheFileWrite)
          else if c.fileSize ≤ i ∧ i < c.m_cacheFileWrite then 0
          else c.fileData i
        fileSize := max c.fileSize (c.m_cacheFileWrite + n)
        m_cacheFileWrite := c.m_cacheFileWrite + n })

/-- Modelled from the spec: `CacheLocalFile::Read` on the read handle, a class
that is not among the sources. A failed call returns -1 and changes nothing. A
call moves at most `count` bytes and at most what the file holds after the
handle's offset; moving `n` bytes copies them to `p[0..n)`, advances the offset
by `n` and returns `n`. -/
def physRead (c : CSimpleFileCache) (p : Buffer) (count : Nat) (o : Option IoOutcome) :
    Int × CSimpleFileCache × Buffer :=
  let n : Nat :=
    match o with
    | some IoOutcome.error => 0
    | some (IoOutcome.transfer k) => min (min k count) (c.fileSize - c.m_cacheFileRead)
    | none => min count (c.fileSize - c.m_cacheFileRead)
  if o = some IoOutcome.error then (-1, c, p)
  else
    ((n : Int),
      { c with m_cacheFileRead := c.m_cacheFileRead + n },
      fun i => if i < n then c.fileData (c.m_cacheFileRead + i) else p i)

/-- Modelled from the spec: the offset a `CacheLocalFile::Seek` asks for
("seek-with-whence returning resulting offset"), the class not being among the
sources: counted from the start, from the handle's offset or from the end of
the file; any other origin is invalid. -/
def seekTarget (offset size : Nat) (pos whence : Int) : Int :=
  if whence = SEEK_SET then pos
  else if whence = SEEK_CUR then (offset : Int) + pos
  else if whence = SEEK_END then (size : Int) + pos
  else -1

/-- Modelled from the spec: `CacheLocalFile::Seek` on the write handle, a class
that is not among the sources. It returns the resulting offset; when the storage
layer refuses (`ok = false`) or the offset asked for is negative it returns -1
and the handle stays where it is. -/
def physSeekWrite (c : CSimpleFileCache) (pos whence : Int) (ok : Bool) : Int × CSimpleFileCache :=
  let t := seekTarget c.m_cacheFileWrite c.fileSize pos whence
  if ok = false ∨ t < 0 then (-1, c) else (t, { c with m_cacheFileWrite := t.toNat })

/-- Modelled from the spec: `CacheLocalFile::Seek` on the read handle, a class
that is not among the sources. It returns the resulting offset; when the storage
layer refuses (`ok = false`) or the offset asked for is negative it returns -1
and the handle stays where it is. -/
def physSeekRead (c : CSimpleFileCache) (pos whence : Int) (ok : Bool) : Int × CSimpleFileCache :=
  let t := seekTarget c.m_cacheFileRead c.fileSize pos whence
  if ok = false ∨ t < 0 then (-1, c) else (t, { c with m_cacheFileRead := t.toNat })

/-- Embedding of `CCacheStrategy::IsEndOfInput` -/
def IsEndOfInput (c : CSimpleFileCache) : Bool := c.m_bEndOfInput

/-- Embedding of `CCacheStrategy::ClearEndOfInput` -/
def ClearEndOfInput (c : CSimpleFileCache) : CSimpleFileCache :=
  { c with m_bEndOfInput := false }

/-- Embedding of `CSimpleFileCache::EndOfInput`: sets the flag and signals the
data-available event. -/
def EndOfInput (c : CSimpleFileCache) : CSimpleFileCache :=
  { c with m_bEndOfInput := true, m_hDataAvailEvent := true }

/-- Embedding of `CSimpleFileCache::GetMaxWriteSize` -/
def GetMaxWriteSize (_c : CSimpleFileCache) (iRequestSize : Nat) : Nat := iRequestSize

/-- Embedding of `CSimpleFileCache::GetAvailableRead` -/
def GetAvailableRead (c : CSimpleFileCache) : Int := c.m_nWritePosition - c.m_nReadPosition

/-- Embedding of `CSimpleFileCache::CachedDataEndPos` -/
def CachedDataEndPos (c : CSimpleFileCache) : Int := c.m_nStartPosition + c.m_nWritePosition

/-- Embedding of `CSimpleFileCache::IsCachedPosition` -/
def IsCachedPosition (c : CSimpleFileCache) (iFilePosition : Int) : Bool :=
  decide (iFilePosition ≥ c.m_nStartPosition) &&
    decide (iFilePosition ≤ c.m_nStartPosition + c.m_nWritePosition)

/-- Embedding of `CSimpleFileCache::CachedDataEndPosIfSeekTo` -/
def CachedDataEndPosIfSeekTo (c : CSimpleFileCache) (iFilePosition : Int) : Int :=
  if iFilePosition ≥ c.m_nStartPosition ∧ iFilePosition ≤ c.m_nStartPosition + c.m_nWritePosition then
    c.m_nStartPosition + c.m_nWritePosition
  else iFilePosition

/-- What a `WriteToCache` call leaves: the `int` it returns, the cache, and the
values the physical writes returned, in order. -/
structure WriteResult where
  ret : Int
  cache : CSimpleFileCache
  calls : List Int

/-- The `while (iSize > 0)` loop of `CSimpleFileCache::WriteToCache` and what
follows it. The first argument bounds the number of iterations: every iteration
that continues writes at least one byte, so `iSize` iterations are enough. -/
def writeLoop (pBuffer : Buffer) :
    Nat → CSimpleFileCache → Nat → Nat → List IoOutcome → List Int → WriteResult
  | 0, c, _, written, _, calls =>
    ⟨toInt32 written, { c with m_hDataAvailEvent := true }, calls⟩
  | fuel + 1, c, iSize, written, script, calls =>
    if iSize > 0 then
      let r := c.physWrite pBuffer (if iSize > SSIZE_MAX then SSIZE_MAX else iSize) script.head?
      let lastWritten := r.1
      if lastWritten ≤ 0 then
        ⟨CACHE_RC_ERROR, r.2, calls ++ [lastWritten]⟩
      else
        writeLoop pBuffer fuel
          { r.2 with m_nWritePosition := r.2.m_nWritePosition + lastWritten }
          (iSize - lastWritten.toNat) (written + lastWritten.toNat) script.tail
          (calls ++ [lastWritten])
    else
      ⟨toInt32 written, { c with m_hDataAvailEvent := true }, calls⟩

/-- Embedding of `CSimpleFileCache::WriteToCache`; `script` gives the outcome of
each physical write in turn. -/
def WriteToCache (c : CSimpleFileCache) (pBuffer : Buffer) (iSize : Nat)
    (script : List IoOutcome) : WriteResult :=
  writeLoop pBuffer iSize c iSize 0 script []

/-- What a `ReadFromCache` call leaves: the `int` it returns, the cache, the
caller's buffer, and the values the physical reads returned, in order. -/
structure ReadResult where
  ret : Int
  cache : CSimpleFileCache
  pBuffer : Buffer
  calls : List Int

/-- The `while (toRead > 0)` loop of `CSimpleFileCache::ReadFromCache` and what
follows it. The first argument bounds the number of iterations: every iteration
that continues reads at least one byte, so `toRead` iterations are enough. -/
def readLoop :
    Nat → CSimpleFileCache → Buffer → Nat → Nat → List IoOutcome → List Int → ReadResult
  | 0, c, pBuffer, _, readBytes, _, calls =>
    ⟨toInt32 readBytes, if readBytes > 0 then { c with m_space := true } else c, pBuffer, calls⟩
  | fuel + 1, c, pBuffer, toRead, readBytes, script, calls =>
    if toRead > 0 then
      let r := c.physRead pBuffer (if toRead > SSIZE_MAX then SSIZE_MAX else toRead) script.head?
      let lastRead := r.1
      if lastRead = 0 then
        ⟨toInt32 readBytes, if readBytes > 0 then { r.2.1 with m_space := true } else r.2.1,
          r.2.2, calls ++ [lastRead]⟩
      else if lastRead < 0 then
        ⟨CACHE_RC_ERROR, r.2.1, r.2.2, calls ++ [lastRead]⟩
      else
        readLoop fuel
          { r.2.1 with m_nReadPosition := r.2.1.m_nReadPosition + lastRead }
          r.2.2 (toRead - lastRead.toNat) (readBytes + lastRead.toNat) script.tail
          (calls ++ [lastRead])
    else
      ⟨toInt32 readBytes, if readBytes > 0 then { c with m_space := true } else c, pBuffer, calls⟩

/-- Embedding of `CSimpleFileCache::ReadFromCache`; `script` gives the outcome
of each physical read in turn. -/
def ReadFromCache (c : CSimpleFileCache) (pBuffer : Buffer) (iMaxSize : Nat)
    (script : List IoOutcome) : ReadResult :=
  let iAvailable := c.GetAvailableRead
  if iAvailable ≤ 0 then
    ⟨if c.m_bEndOfInput then 0 else CACHE_RC_WOULD_BLOCK, c, pBuffer, []⟩
  else
    let toRead : Nat := if toInt64 iMaxSize > iAvailable then toSizeT iAvailable else iMaxSize
    readLoop toRead c pBuffer toRead 0 script []

/-- What the producer thread may do to the cache while the consumer is inside
one `WaitMSec` call: write, or end the input. -/
inductive ProducerOp where
  | write (pBuffer : Buffer) (iSize : Nat) (script : List IoOutcome)
  | endOfInput

/-- The cache after the producer's operations, in order -/
def produce : CSimpleFileCache → List ProducerOp → CSimpleFileCache
  | c, [] => c
  | c, ProducerOp.write p n s :: ops => produce (c.WriteToCache p n s).cache ops
  | c, ProducerOp.endOfInput :: ops => produce c.EndOfInput ops

/-- What a `WaitForData` call leaves: the `int64_t` it returns, the cache, and
how many times it waited on the data-available event. -/
structure WaitResult where
  ret : Int
  cache : CSimpleFileCache
  waits : Nat

/-- The `while (!IsEndOfInput())` loop of `CSimpleFileCache::WaitForData`. The
list gives, for each `WaitMSec` call in turn, what the producer does while the
consumer waits; the call returns true, resetting the event, exactly when the
event is signalled by then. After the list the producer does nothing more, so
one pending signal is consumed and the next wait runs into the deadline. -/
def waitLoop (iMinAvail : Nat) : CSimpleFileCache → List (List ProducerOp) → Nat → WaitResult
  | c, [], waits =>
    if c.IsEndOfInput then ⟨c.GetAvailableRead, c, waits⟩
    else if c.GetAvailableRead ≥ (iMinAvail : Int) then ⟨c.GetAvailableRead, c, waits⟩
    else if c.m_hDataAvailEvent then
      ⟨CACHE_RC_TIMEOUT, { c with m_hDataAvailEvent := false }, waits + 2⟩
    else ⟨CACHE_RC_TIMEOUT, c, waits + 1⟩
  | c, ops :: env, waits =>
    if c.IsEndOfInput then ⟨c.GetAvailableRead, c, waits⟩
    else if c.GetAvailableRead ≥ (iMinAvail : Int) then ⟨c.GetAvailableRead, c, waits⟩
    else
      let c1 := c.produce ops
      if c1.m_hDataAvailEvent then
        waitLoop iMinAvail { c1 with m_hDataAvailEvent := false } env (waits + 1)
      else ⟨CACHE_RC_TIMEOUT, c1, waits + 1⟩

/-- Embedding of `CSimpleFileCache::WaitForData`; `env` is what the producer
does during each wait on the event. -/
def WaitForData (c : CSimpleFileCache) (iMinAvail iMillis : Nat)
    (env : List (List ProducerOp)) : WaitResult :=
  if iMillis = 0 ∨ c.IsEndOfInput then ⟨c.GetAvailableRead, c, 0⟩
  else waitLoop iMinAvail c env 0

/-- Embedding of `CSimpleFileCache::Seek`; `env` is what the producer does while
the call waits for data, `ok` whether the storage layer performs the seek. -/
def Seek (c : CSimpleFileCache) (iFilePosition : Int) (env : List (List ProducerOp))
    (ok : Bool) : WaitResult :=
  let iTarget := iFilePosition - c.m_nStartPosition
  if iTarget < 0 then ⟨CACHE_RC_ERROR, c, 0⟩
  else
    let nDiff := iTarget - c.m_nWritePosition
    if nDiff > 500000 then ⟨CACHE_RC_ERROR, c, 0⟩
    else
      let w : WaitResult :=
        if nDiff > 0 then c.WaitForData (toUInt32 (iTarget - c.m_nReadPosition)) 5000 env
        else ⟨0, c, 0⟩
      if nDiff > 0 ∧ w.ret = CACHE_RC_TIMEOUT then ⟨CACHE_RC_ERROR, w.cache, w.waits⟩
      else
        let s := w.cache.physSeekRead iTarget SEEK_SET ok
        let c1 : CSimpleFileCache := { s.2 with m_nReadPosition := s.1 }
        if c1.m_nReadPosition ≠ iTarget then ⟨CACHE_RC_ERROR, c1, w.waits⟩
        else ⟨iFilePosition, { c1 with m_space := true }, w.waits⟩

/-- Embedding of `CSimpleFileCache::SeekWrite`; `ok` is whether the storage
layer performs the seek. -/
def SeekWrite (c : CSimpleFileCache) (iFilePosition whence : Int) (ok : Bool) :
    Int × CSimpleFileCache :=
  let iTarget := if whence = SEEK_SET then iFilePosition - c.m_nStartPosition else iFilePosition
  if whence = SEEK_SET ∧ iTarget < 0 then (CACHE_RC_ERROR, c)
  else
    let s := c.physSeekWrite iTarget whence ok
    let c1 : CSimpleFileCache := { s.2 with m_nWritePosition := s.1 }
    if c1.m_nWritePosition ≠ iTarget then (CACHE_RC_ERROR, c1)
    else (iFilePosition, c1)

/-- Embedding of `CSimpleFileCache::Reset`; `okW` and `okR` are whether the
storage layer performs the seek of the write handle and of the read handle. -/
def Reset (c : CSimpleFileCache) (iSourcePosition : Int) (clearAnyway : Bool) (okW okR : Bool) :
    Bool × CSimpleFileCache :=
  if !clearAnyway && c.IsCachedPosition iSourcePosition then
    let s := c.physSeekRead (iSourcePosition - c.m_nStartPosition) SEEK_SET okR
    (false, { s.2 with m_nReadPosition := s.1 })
  else
    let c1 : CSimpleFileCache := { c with m_nStartPosition := iSourcePosition }
    let sw := c1.physSeekWrite 0 SEEK_SET okW
    let c2 : CSimpleFileCache := { sw.2 with m_nWritePosition := sw.1 }
    let sr := c2.physSeekRead 0 SEEK_SET okR
    (true, { sr.2 with m_nReadPosition := sr.1 })

/-- The cache holds the written bytes `d`: the write cursor is at their count
and the backing file has them at the physical offsets from 0 on. -/
def Holds (c : CSimpleFileCache) (d : List Byte) : Prop :=
  c.m_nWritePosition = (d.length : Int) ∧ d.length ≤ c.fileSize ∧
    ∀ i : Nat, i < d.length → c.fileData i = d.getD i 0

/-- One call of the caller-facing interface, together with what the storage
layer and the producer do during it. -/
inductive Op where
  | writeToCache (pBuffer : Buffer) (iSize : Nat) (script : List IoOutcome)
  | readFromCache (pBuffer : Buffer) (iMaxSize : Nat) (script : List IoOutcome)
  | waitForData (iMinAvail iMillis : Nat) (env : List (List ProducerOp))
  | seek (iFilePosition : Int) (env : List (List ProducerOp)) (ok : Bool)
  | seekWrite (iFilePosition whence : Int) (ok : Bool)
  | reset (iSourcePosition : Int) (clearAnyway : Bool) (okW okR : Bool)
  | endOfInput

/-- The cache after one call -/
def step (c : CSimpleFileCache) : Op → CSimpleFileCache
  | Op.writeToCache p n s => (c.WriteToCache p n s).cache
  | Op.readFromCache p n s => (c.ReadFromCache p n s).cache
  | Op.waitForData m t env => (c.WaitForData m t env).cache
  | Op.seek pos env ok => (c.Seek pos env ok).cache
  | Op.seekWrite pos whence ok => (c.SeekWrite pos whence ok).2
  | Op.reset pos clear okW okR => (c.Reset pos clear okW okR).2
  | Op.endOfInput => c.EndOfInput

/-- The cache after a sequence of calls, in order -/
def run : CSimpleFileCache → List Op → CSimpleFileCache
  | c, [] => c
  | c, op :: ops => run (c.step op) ops

/-- The calls that keep the read cursor behind the write cursor, on the cache
they are made on: any `WriteToCache`, `WaitForData` and `EndOfInput`; a
`ReadFromCache` into a buffer of a size that exists (at most `SSIZE_MAX`); a
`Seek` to a position that is already covered; a `Reset` in which the storage layer
rewinds the write handle. `SeekWrite` is not among them. -/
def Op.orderly (c : CSimpleFileCache) : Op → Prop
  | Op.writeToCache _ _ _ => True
  | Op.readFromCache _ n _ => n ≤ SSIZE_MAX
  | Op.waitForData _ _ _ => True
  | Op.seek pos _ _ => c.IsCachedPosition pos = true
  | Op.seekWrite _ _ _ => False
  | Op.reset _ _ okW _ => okW = true
  | Op.endOfInput => True

/-- Every call of the sequence is orderly on the cache it is made on -/
def Orderly : CSimpleFileCache → List Op → Prop
  | _, [] => True
  | c, op :: ops => op.orderly c ∧ Orderly (c.step op) ops

end CSimpleFileCache

/-- State of a `CDoubleCache` (the Rotating Cache): the active cache `m_pCache`
and the displaced cache `m_pCacheOld`, which may be absent. Both are Basic
Caches, as in the specification. -/
structure CDoubleCache where
  m_pCache : CSimpleFileCache
  m_pCacheOld : Option CSimpleFileCache

/-- What a `CDoubleCache::Seek` call leaves: the `int64_t` it returns, the
rotating cache, and how many times it waited on the data-available event. -/
structure DoubleSeekResult where
  ret : Int
  cache : CDoubleCache
  waits : Nat

/-- One round of the alternation between two windows: a `Reset(pos, false)` and
the `WriteToCache` that follows it. -/
structure Round where
  pos : Int
  pBuffer : Buffer
  iSize : Nat
  script : List IoOutcome

namespace CDoubleCache

/-- Modelled from the spec: a rotating cache right after construction around a
new `CSimpleFileCache` and a successful `Open()`: the active cache is freshly
opened and there is no previous cache. -/
def freshDoubleCache : CDoubleCache :=
  { m_pCache := CSimpleFileCache.freshCache, m_pCacheOld := none }

/-- Embedding of `CDoubleCache::GetMaxWriteSize` -/
def GetMaxWriteSize (d : CDoubleCache) (iRequestSize : Nat) : Nat :=
  d.m_pCache.GetMaxWriteSize iRequestSize

/-- Embedding of `CDoubleCache::WriteToCache`: the result of the active cache,
and the rotating cache after the call. -/
def WriteToCache (d : CDoubleCache) (pBuffer : Buffer) (iSize : Nat) (script : List IoOutcome) :
    CSimpleFileCache.WriteResult × CDoubleCache :=
  (d.m_pCache.WriteToCache pBuffer iSize script,
    { d with m_pCache := (d.m_pCache.WriteToCache pBuffer iSize script).cache })

/-- Embedding of `CDoubleCache::ReadFromCache`: the result of the active cache,
and the rotating cache after the call. -/
def ReadFromCache (d : CDoubleCache) (pBuffer : Buffer) (iMaxSize : Nat) (script : List IoOutcome) :
    CSimpleFileCache.ReadResult × CDoubleCache :=
  (d.m_pCache.ReadFromCache pBuffer iMaxSize script,
    { d with m_pCache := (d.m_pCache.ReadFromCache pBuffer iMaxSize script).cache })

/-- Embedding of `CDoubleCache::WaitForData`: the result of the active cache,
and the rotating cache after the call. -/
def WaitForData (d : CDoubleCache) (iMinAvail iMillis : Nat) (env : List (List CSimpleFileCache.ProducerOp)) :
    CSimpleFileCache.WaitResult × CDoubleCache :=
  (d.m_pCache.WaitForData iMinAvail iMillis env,
    { d with m_pCache := (d.m_pCache.WaitForData iMinAvail iMillis env).cache })

/-- Embedding of `CDoubleCache::IsCachedPosition` -/
def IsCachedPosition (d : CDoubleCache) (iFilePosition : Int) : Bool :=
  d.m_pCache.IsCachedPosition iFilePosition ||
    (match d.m_pCacheOld with
      | some old => old.IsCachedPosition iFilePosition
      | none => false)

/-- Embedding of `CDoubleCache::CachedDataEndPos` -/
def CachedDataEndPos (d : CDoubleCache) : Int := d.m_pCache.CachedDataEndPos

/-- Embedding of `CDoubleCache::CachedDataEndPosIfSeekTo` -/
def CachedDataEndPosIfSeekTo (d : CDoubleCache) (iFilePosition : Int) : Int :=
  let ret := d.m_pCache.CachedDataEndPosIfSeekTo iFilePosition
  match d.m_pCacheOld with
  | some old => max ret (old.CachedDataEndPosIfSeekTo iFilePosition)
  | none => ret

/-- Embedding of `CDoubleCache::Seek` -/
def Seek (d : CDoubleCache) (iFilePosition : Int) (env : List (List CSimpleFileCache.ProducerOp)) (ok : Bool) :
    DoubleSeekResult :=
  if (!d.m_pCache.IsCachedPosition iFilePosition &&
      (match d.m_pCacheOld with
        | some old => old.IsCachedPosition iFilePosition
        | none => false)) = true then
    ⟨CACHE_RC_ERROR, d, 0⟩
  else
    ⟨(d.m_pCache.Seek iFilePosition env ok).ret,
      { d with m_pCache := (d.m_pCache.Seek iFilePosition env ok).cache },
      (d.m_pCache.Seek iFilePosition env ok).waits⟩

/-- Embedding of `CDoubleCache::SeekWrite` -/
def SeekWrite (d : CDoubleCache) (iFilePosition whence : Int) (ok : Bool) : Int × CDoubleCache :=
  ((d.m_pCache.SeekWrite iFilePosition whence ok).1,
    { d with m_pCache := (d.m_pCache.SeekWrite iFilePosition whence ok).2 })

/-- The first test of `CDoubleCache::Reset`: the request is served by the active
cache in place. -/
def staysPut (d : CDoubleCache) (iSourcePosition : Int) (clearAnyway : Bool) : Bool :=
  !clearAnyway && d.m_pCache.IsCachedPosition iSourcePosition &&
    (match d.m_pCacheOld with
      | none => true
      | some old =>
        !old.IsCachedPosition iSourcePosition ||
          decide (d.m_pCache.CachedDataEndPos ≥ old.CachedDataEndPos))

/-- Embedding of `CDoubleCache::Reset`. `openOk` is whether `Open()` of the cache
made by `CreateNew()` succeeds, in which case that cache is freshly opened;
`okW` and `okR` are whether the storage layer performs the seeks of the write
and of the read handle of the cache that is reset. -/
def Reset (d : CDoubleCache) (iSourcePosition : Int) (clearAnyway : Bool)
    (openOk okW okR : Bool) : Bool × CDoubleCache :=
  if d.staysPut iSourcePosition clearAnyway = true then
    ((d.m_pCache.Reset iSourcePosition clearAnyway okW okR).1,
      { d with m_pCache := (d.m_pCache.Reset iSourcePosition clearAnyway okW okR).2 })
  else
    match d.m_pCacheOld with
    | none =>
      if openOk = false then
        ((d.m_pCache.Reset iSourcePosition clearAnyway okW okR).1,
          { d with m_pCache := (d.m_pCache.Reset iSourcePosition clearAnyway okW okR).2 })
      else
        ((CSimpleFileCache.freshCache.Reset iSourcePosition clearAnyway okW okR).1,
          { m_pCache := (CSimpleFileCache.freshCache.Reset iSourcePosition clearAnyway okW okR).2
            m_pCacheOld := some d.m_pCache })
    | some old =>
      ((old.Reset iSourcePosition clearAnyway okW okR).1,
        { m_pCache := (old.Reset iSourcePosition clearAnyway okW okR).2
          m_pCacheOld := some d.m_pCache })

/-- Embedding of `CDoubleCache::EndOfInput` -/
def EndOfInput (d : CDoubleCache) : CDoubleCache :=
  { d with m_pCache := d.m_pCache.EndOfInput }

/-- Embedding of `CDoubleCache::IsEndOfInput` -/
def IsEndOfInput (d : CDoubleCache) : Bool := d.m_pCache.IsEndOfInput

/-- Embedding of `CDoubleCache::ClearEndOfInput` -/
def ClearEndOfInput (d : CDoubleCache) : CDoubleCache :=
  { d with m_pCache := d.m_pCache.ClearEndOfInput }

/-- The rotating cache after one round: `Reset(pos, false)` with the new cache
opened and the seeks performed, then the `WriteToCache` of the round. -/
def round (d : CDoubleCache) (r : Round) : CDoubleCache :=
  ((d.Reset r.pos false true true true).2.WriteToCache r.pBuffer r.iSize r.script).2

/-- The rotating cache after a sequence of rounds, in order -/
def rounds : CDoubleCache → List Round → CDoubleCache
  | d, [] => d
  | d, r :: rs => rounds (d.round r) rs

/-- The rounds alternate between two windows of source positions: the first
round resets into `[lo1, hi1]`, the data it writes ends inside that window and
no physical write of its `WriteToCache` fails, so that the data is written; the
second does so in `[lo2, hi2]`, the third in `[lo1, hi1]` again, and so on. -/
def Alternates : Int → Int → Int → Int → CDoubleCache → List Round → Prop
  | _, _, _, _, _, [] => True
  | lo1, hi1, lo2, hi2, d, r :: rs =>
    lo1 ≤ r.pos ∧
      (d.Reset r.pos false true true true).2.CachedDataEndPos + r.iSize ≤ hi1 ∧
      (∀ v ∈ ((d.Reset r.pos false true true true).2.WriteToCache r.pBuffer r.iSize
        r.script).1.calls, 0 < v) ∧
      Alternates lo2 hi2 lo1 hi1 (d.round r) rs

end CDoubleCache

/-- One call of the caller-facing interface of the rotating cache, together with
what the storage layer and the producer do during it. -/
inductive DoubleOp where
  | reset (iSourcePosition : Int) (clearAnyway : Bool) (openOk okW okR : Bool)
  | seek (iFilePosition : Int) (env : List (List CSimpleFileCache.ProducerOp)) (ok : Bool)
  | seekWrite (iFilePosition whence : Int) (ok : Bool)
  | writeToCache (pBuffer : Buffer) (iSize : Nat) (script : List IoOutcome)
  | readFromCache (pBuffer : Buffer) (iMaxSize : Nat) (script : List IoOutcome)
  | waitForData (iMinAvail iMillis : Nat) (env : List (List CSimpleFileCache.ProducerOp))
  | endOfInput
  | clearEndOfInput

namespace CDoubleCache

/-- The rotating cache after one call -/
def step (d : CDoubleCache) : DoubleOp → CDoubleCache
  | DoubleOp.reset pos clear openOk okW okR => (d.Reset pos clear openOk okW okR).2
  | DoubleOp.seek pos env ok => (d.Seek pos env ok).cache
  | DoubleOp.seekWrite pos whence ok => (d.SeekWrite pos whence ok).2
  | DoubleOp.writeToCache p n s => (d.WriteToCache p n s).2
  | DoubleOp.readFromCache p n s => (d.ReadFromCache p n s).2
  | DoubleOp.waitForData m t env => (d.WaitForData m t env).2
  | DoubleOp.endOfInput => d.EndOfInput
  | DoubleOp.clearEndOfInput => d.ClearEndOfInput

/-- The rotating cache after a sequence of calls, in order -/
def run : CDoubleCache → List DoubleOp → CDoubleCache
  | d, [] => d
  | d, op :: ops => run (d.step op) ops

/-- How many underlying caches the rotating cache holds: the active one, and
the previous one when there is one. -/
def cacheCount (d : CDoubleCache) : Nat :=
  match d.m_pCacheOld with
  | some _ => 2
  | none => 1

end CDoubleCache

end XFILE

/-! ## Lemmas on the loops and the cursors -/

namespace XFILE
namespace CSimpleFileCache

theorem toInt32_of_le (n : Nat) (h : n ≤ INT_MAX) : toInt32 (n : Int) = n := by
  unfold toInt32; unfold INT_MAX at h; omega

theorem toInt64_of_le (n : Nat) (h : n ≤ SSIZE_MAX) : toInt64 (n : Int) = n := by
  unfold toInt64; unfold SSIZE_MAX at h; omega

theorem toInt32_le_self (n : Nat) : 0 ≤ toInt32 (n : Int) → toInt32 (n : Int) ≤ n := by
  unfold toInt32; omega

/-- The amount `ReadFromCache` sets out to read, for a buffer size that exists:
the smaller of the buffer size and the available bytes. -/
theorem toRead_eq_min (iMaxSize : Nat) (avail : Int) (havail : 0 < avail)
    (hsize : iMaxSize ≤ SSIZE_MAX) :
    (((if toInt64 (iMaxSize : Int) > avail then toSizeT avail else iMaxSize : Nat) : Int))
      = min (iMaxSize : Int) avail := by
  rw [toInt64_of_le iMaxSize hsize]
  unfold SSIZE_MAX at hsize
  by_cases h : (iMaxSize : Int) > avail
  · simp only [h, if_true]
    unfold toSizeT
    omega
  · simp only [h, if_false]
    omega

theorem sum_nonneg_of_pos (l : List Int) (h : ∀ v ∈ l, 0 < v) : 0 ≤ l.sum :=
  List.sum_nonneg (fun v hv => le_of_lt (h v hv))

/-- A physical write either fails, returning a value that is not positive and
leaving the cache as it was, or moves between 1 and `count` bytes and touches
only the file and the write handle. -/
theorem physWrite_cases (c : CSimpleFileCache) (p : Buffer) (count : Nat) (o : Option IoOutcome) :
    ((c.physWrite p count o).1 ≤ 0 ∧ (c.physWrite p count o).2 = c) ∨
    (∃ n : Nat, 0 < n ∧ n ≤ count ∧ (c.physWrite p count o).1 = (n : Int) ∧
      (c.physWrite p count o).2.m_nStartPosition = c.m_nStartPosition ∧
      (c.physWrite p count o).2.m_nWritePosition = c.m_nWritePosition ∧
      (c.physWrite p count o).2.m_nReadPosition = c.m_nReadPosition ∧
      (c.physWrite p count o).2.m_bEndOfInput = c.m_bEndOfInput ∧
      (c.physWrite p count o).2.m_hDataAvailEvent = c.m_hDataAvailEvent ∧
      (c.physWrite p count o).2.m_space = c.m_space ∧
      (c.physWrite p count o).2.m_cacheFileRead = c.m_cacheFileRead) := by
  unfold physWrite
  rcases o with _ | o
  · by_cases h0 : count = 0
    · left; simp [h0]
    · right; refine ⟨count, by omega, le_refl _, ?_⟩; simp [h0]
  · cases o with
    | error => left; simp
    | transfer k =>
      by_cases h0 : min k count = 0
      · left; simp [h0]
      · right; refine ⟨min k count, by omega, by omega, ?_⟩; simp [h0]

/-- What the write loop leaves, in terms of the values the physical writes
returned: either they are all positive, add up to `iSize`, and the call
returns the converted total with the event signalled; or the last one is a
failure, the call returns the error code, and the event is as before. -/
theorem writeLoop_spec (p : Buffer) :
    ∀ (fuel : Nat) (c : CSimpleFileCache) (iSize written : Nat) (script : List IoOutcome)
      (calls : List Int), iSize ≤ fuel →
      ∃ new : List Int,
        (writeLoop p fuel c iSize written script calls).calls = calls ++ new ∧
        (writeLoop p fuel c iSize written script calls).cache.m_nStartPosition = c.m_nStartPosition ∧
        (writeLoop p fuel c iSize written script calls).cache.m_nReadPosition = c.m_nReadPosition ∧
        (writeLoop p fuel c iSize written script calls).cache.m_bEndOfInput = c.m_bEndOfInput ∧
        (writeLoop p fuel c iSize written script calls).cache.m_space = c.m_space ∧
        (writeLoop p fuel c iSize written script calls).cache.m_cacheFileRead = c.m_cacheFileRead ∧
        (((∀ v ∈ new, 0 < v) ∧ new.sum = (iSize : Int) ∧
            (writeLoop p fuel c iSize written script calls).ret = toInt32 ((written + iSize : Nat) : Int) ∧
            (writeLoop p fuel c iSize written script calls).cache.m_nWritePosition
              = c.m_nWritePosition + iSize ∧
            (writeLoop p fuel c iSize written script calls).cache.m_hDataAvailEvent = true) ∨
          (∃ (good : List Int) (bad : Int), new = good ++ [bad] ∧ (∀ v ∈ good, 0 < v) ∧ bad ≤ 0 ∧
            good.sum < (iSize : Int) ∧
            (writeLoop p fuel c iSize written script calls).ret = CACHE_RC_ERROR ∧
            (writeLoop p fuel c iSize written script calls).cache.m_nWritePosition
              = c.m_nWritePosition + good.sum ∧
            (writeLoop p fuel c iSize written script calls).cache.m_hDataAvailEvent
              = c.m_hDataAvailEvent)) := by
  intro fuel
  induction fuel with
  | zero =>
    intro c iSize written script calls h
    have h0 : iSize = 0 := by omega
    subst h0
    exact ⟨[], by simp [writeLoop], rfl, rfl, rfl, rfl, rfl, Or.inl (by simp [writeLoop])⟩
  | succ fuel ih =>
    intro c iSize written script calls h
    by_cases hs : iSize > 0
    · rcases physWrite_cases c p (if iSize > SSIZE_MAX then SSIZE_MAX else iSize) script.head? with
        ⟨hle, hc⟩ | ⟨n, hn0, hn, hret, h1, h2, h3, h4, h5, h6, h7⟩
      · refine ⟨[(c.physWrite p (if iSize > SSIZE_MAX then SSIZE_MAX else iSize) script.head?).1],
          ?_, ?_, ?_, ?_, ?_, ?_, Or.inr ⟨[], _, rfl, ?_, hle, ?_, ?_, ?_, ?_⟩⟩ <;>
          simp [writeLoop, hs, hle, hc]
      · have hn' : n ≤ iSize := by
          split at hn <;> omega
        have hpos : ¬ (c.physWrite p (if iSize > SSIZE_MAX then SSIZE_MAX else iSize) script.head?).1 ≤ 0 := by
          rw [hret]; omega
        obtain ⟨new, e1, e2, e3, e4, e5, e6, e7⟩ :=
          ih { (c.physWrite p (if iSize > SSIZE_MAX then SSIZE_MAX else iSize) script.head?).2 with
                m_nWritePosition :=
                  (c.physWrite p (if iSize > SSIZE_MAX then SSIZE_MAX else iSize) script.head?).2.m_nWritePosition
                    + (c.physWrite p (if iSize > SSIZE_MAX then SSIZE_MAX else iSize) script.head?).1 }
            (iSize - (c.physWrite p (if iSize > SSIZE_MAX then SSIZE_MAX else iSize) script.head?).1.toNat)
            (written + (c.physWrite p (if iSize > SSIZE_MAX then SSIZE_MAX else iSize) script.head?).1.toNat)
            script.tail
            (calls ++ [(c.physWrite p (if iSize > SSIZE_MAX then SSIZE_MAX else iSize) script.head?).1])
            (by rw [hret]; simp; omega)
        have hunf : writeLoop p (fuel + 1) c iSize written script calls =
            writeLoop p fuel
              { (c.physWrite p (if iSize > SSIZE_MAX then SSIZE_MAX else iSize) script.head?).2 with
                m_nWritePosition :=
                  (c.physWrite p (if iSize > SSIZE_MAX then SSIZE_MAX else iSize) script.head?).2.m_nWritePosition
                    + (c.physWrite p (if iSize > SSIZE_MAX then SSIZE_MAX else iSize) script.head?).1 }
              (iSize - (c.physWrite p (if iSize > SSIZE_MAX then SSIZE_MAX else iSize) script.head?).1.toNat)
              (written + (c.physWrite p (if iSize > SSIZE_MAX then SSIZE_MAX else iSize) script.head?).1.toNat)
              script.tail
              (calls ++ [(c.physWrite p (if iSize > SSIZE_MAX then SSIZE_MAX else iSize) script.head?).1]) := by
          simp only [writeLoop, hs, hpos, if_true, if_false]
        rw [hunf]
        refine ⟨(n : Int) :: new, ?_, ?_, ?_, ?_, ?_, ?_, ?_⟩
        · rw [e1, hret]; simp
        · rw [e2]; exact h1
        · rw [e3]; exact h3
        · rw [e4]; exact h4
        · rw [e5]; exact h6
        · rw [e6]; exact h7
        · rcases e7 with ⟨a1, a2, a3, a4, a5⟩ | ⟨good, bad, a1, a2, a3, a4, a5, a6, a7⟩
          · left
            refine ⟨?_, ?_, ?_, ?_, a5⟩
            · intro v hv
              rcases List.mem_cons.mp hv with hv | hv
              · rw [hv]; exact_mod_cast hn0
              · exact a1 v hv
            · rw [List.sum_cons, a2, hret]; simp; omega
            · rw [a3, hret]; congr 1; simp; omega
            · rw [a4, hret]; simp [h2]; omega
          · right
            refine ⟨(n : Int) :: good, bad, by rw [a1]; simp, ?_, a3, ?_, a5, ?_, ?_⟩
            · intro v hv
              rcases List.mem_cons.mp hv with hv | hv
              · rw [hv]; exact_mod_cast hn0
              · exact a2 v hv
            · rw [List.sum_cons]; rw [hret] at a4; simp at a4; omega
            · rw [a6, hret, List.sum_cons]; simp [h2]; omega
            · rw [a7]; simp [h5]
    · have h0 : iSize = 0 := by omega
      subst h0
      exact ⟨[], by simp [writeLoop], rfl, rfl, rfl, rfl, rfl, Or.inl (by simp [writeLoop])⟩

/-- A physical read either fails, returning a negative value and leaving the
cache and the buffer as they were, or moves between 0 and `count` bytes, all of
them inside the file, and touches only the read handle and the buffer. -/
theorem physRead_cases (c : CSimpleFileCache) (p : Buffer) (count : Nat) (o : Option IoOutcome) :
    ((c.physRead p count o).1 < 0 ∧ (c.physRead p count o).2.1 = c ∧ (c.physRead p count o).2.2 = p) ∨
    (∃ n : Nat, n ≤ count ∧ n ≤ c.fileSize - c.m_cacheFileRead ∧
      (c.physRead p count o).1 = (n : Int) ∧
      (c.physRead p count o).2.1 = { c with m_cacheFileRead := c.m_cacheFileRead + n } ∧
      (c.physRead p count o).2.2 = fun i => if i < n then c.fileData (c.m_cacheFileRead + i) else p i) := by
  unfold physRead
  rcases o with _ | o
  · right; exact ⟨min count (c.fileSize - c.m_cacheFileRead), by omega, by omega, by simp⟩
  · cases o with
    | error => left; simp
    | transfer k =>
      right
      exact ⟨min (min k count) (c.fileSize - c.m_cacheFileRead), by omega, by omega, by simp⟩

/-- What the read loop leaves, in terms of the values the physical reads
returned: they are all positive and add up to `toRead`; or the last one is
zero and the call returns the converted count of the bytes read before it; or
the last one is negative and the call returns the error code. The read cursor
advances by the bytes read, and the writer's side is untouched. -/
theorem readLoop_spec :
    ∀ (fuel : Nat) (c : CSimpleFileCache) (pBuffer : Buffer) (toRead readBytes : Nat)
      (script : List IoOutcome) (calls : List Int), toRead ≤ fuel →
      ∃ new : List Int,
        (readLoop fuel c pBuffer toRead readBytes script calls).calls = calls ++ new ∧
        (readLoop fuel c pBuffer toRead readBytes script calls).cache.m_nStartPosition
          = c.m_nStartPosition ∧
        (readLoop fuel c pBuffer toRead readBytes script calls).cache.m_nWritePosition
          = c.m_nWritePosition ∧
        (readLoop fuel c pBuffer toRead readBytes script calls).cache.m_bEndOfInput
          = c.m_bEndOfInput ∧
        (readLoop fuel c pBuffer toRead readBytes script calls).cache.m_hDataAvailEvent
          = c.m_hDataAvailEvent ∧
        (readLoop fuel c pBuffer toRead readBytes script calls).cache.m_cacheFileWrite
          = c.m_cacheFileWrite ∧
        (readLoop fuel c pBuffer toRead readBytes script calls).cache.fileSize = c.fileSize ∧
        (readLoop fuel c pBuffer toRead readBytes script calls).cache.fileData = c.fileData ∧
        (((∀ v ∈ new, 0 < v) ∧ new.sum = (toRead : Int) ∧
            (readLoop fuel c pBuffer toRead readBytes script calls).ret
              = toInt32 ((readBytes + toRead : Nat) : Int) ∧
            (readLoop fuel c pBuffer toRead readBytes script calls).cache.m_nReadPosition
              = c.m_nReadPosition + toRead) ∨
          (∃ (good : List Int) (k : Nat), new = good ++ [0] ∧ (∀ v ∈ good, 0 < v) ∧
            good.sum = (k : Int) ∧ k < toRead ∧
            (readLoop fuel c pBuffer toRead readBytes script calls).ret
              = toInt32 ((readBytes + k : Nat) : Int) ∧
            (readLoop fuel c pBuffer toRead readBytes script calls).cache.m_nReadPosition
              = c.m_nReadPosition + k) ∨
          (∃ (good : List Int) (bad : Int) (k : Nat), new = good ++ [bad] ∧ (∀ v ∈ good, 0 < v) ∧
            bad < 0 ∧ good.sum = (k : Int) ∧ k < toRead ∧
            (readLoop fuel c pBuffer toRead readBytes script calls).ret = CACHE_RC_ERROR ∧
            (readLoop fuel c pBuffer toRead readBytes script calls).cache.m_nReadPosition
              = c.m_nReadPosition + k)) := by
  intro fuel
  induction fuel with
  | zero =>
    intro c pBuffer toRead readBytes script calls h
    have h0 : toRead = 0 := by omega
    subst h0
    refine ⟨[], by simp [readLoop], ?_, ?_, ?_, ?_, ?_, ?_, ?_, Or.inl ?_⟩ <;>
      by_cases hr : readBytes > 0 <;> simp [readLoop, hr]
  | succ fuel ih =>
    intro c pBuffer toRead readBytes script calls h
    by_cases hs : toRead > 0
    · have hcases := physRead_cases c pBuffer (if toRead > SSIZE_MAX then SSIZE_MAX else toRead) script.head?
      simp only [readLoop, hs, if_true]
      generalize c.physRead pBuffer (if toRead > SSIZE_MAX then SSIZE_MAX else toRead) script.head? = r
        at hcases ⊢
      obtain ⟨lr, c1, b1⟩ := r
      simp only at hcases ⊢
      rcases hcases with ⟨hlt, hc, _⟩ | ⟨n, hn, _, hret, hc, _⟩
      · have hne : ¬ lr = 0 := by omega
        subst hc
        refine ⟨[lr], ?_, ?_, ?_, ?_, ?_, ?_, ?_, ?_,
          Or.inr (Or.inr ⟨[], lr, 0, rfl, ?_, hlt, ?_, hs, ?_, ?_⟩)⟩ <;> simp [hlt, hne]
      · have hn1 : n ≤ toRead := by
          split at hn <;> omega
        subst hret
        by_cases hz : n = 0
        · subst hz
          subst hc
          refine ⟨[0], ?_, ?_, ?_, ?_, ?_, ?_, ?_, ?_,
            Or.inr (Or.inl ⟨[], 0, rfl, ?_, ?_, hs, ?_, ?_⟩)⟩ <;>
            by_cases hr : readBytes > 0 <;> simp [hr]
        · have hne : ¬ (n : Int) = 0 := by omega
          have hnl : ¬ (n : Int) < 0 := by omega
          simp only [hne, hnl, if_false, Int.toNat_ofNat]
          obtain ⟨new, e1, e2, e3, e4, e5, e6, e7, e8, e9⟩ :=
            ih { c1 with m_nReadPosition := c1.m_nReadPosition + (n : Int) } b1 (toRead - n)
              (readBytes + n) script.tail (calls ++ [(n : Int)]) (by omega)
          have hmem : ∀ good : List Int, (∀ v ∈ good, 0 < v) → ∀ v ∈ (n : Int) :: good, 0 < v := by
            intro good hg v hv
            rcases List.mem_cons.mp hv with hv | hv
            · rw [hv]; exact_mod_cast Nat.pos_of_ne_zero hz
            · exact hg v hv
          subst hc
          refine ⟨(n : Int) :: new, ?_, e2, e3, e4, e5, e6, e7, e8, ?_⟩
          · exact e1.trans (by simp)
          · rcases e9 with ⟨a1, a2, a3, a4⟩ | ⟨good, k, a1, a2, a3, a4, a5, a6⟩ |
              ⟨good, bad, k, a1, a2, a3, a4, a5, a6, a7⟩
            · left
              refine ⟨hmem new a1, ?_, ?_, ?_⟩
              · rw [List.sum_cons, a2]; omega
              · refine a3.trans ?_
                congr 1; push_cast; omega
              · refine a4.trans ?_
                show c.m_nReadPosition + (n : Int) + ((toRead - n : Nat) : Int) = c.m_nReadPosition + toRead
                push_cast [hn1]; omega
            · right; left
              refine ⟨(n : Int) :: good, n + k, by rw [a1]; simp, hmem good a2, ?_, by omega, ?_, ?_⟩
              · rw [List.sum_cons, a3]; push_cast; rfl
              · refine a5.trans ?_
                congr 1; push_cast; omega
              · refine a6.trans ?_
                show c.m_nReadPosition + (n : Int) + (k : Int) = c.m_nReadPosition + ((n + k : Nat) : Int)
                push_cast; omega
            · right; right
              refine ⟨(n : Int) :: good, bad, n + k, by rw [a1]; simp, hmem good a2, a3, ?_, by omega,
                a6, ?_⟩
              · rw [List.sum_cons, a4]; push_cast; rfl
              · refine a7.trans ?_
                show c.m_nReadPosition + (n : Int) + (k : Int) = c.m_nReadPosition + ((n + k : Nat) : Int)
                push_cast; omega
    · have h0 : toRead = 0 := by omega
      subst h0
      refine ⟨[], by simp [readLoop], ?_, ?_, ?_, ?_, ?_, ?_, ?_, Or.inl ?_⟩ <;>
        by_cases hr : readBytes > 0 <;> simp [readLoop, hr]

/-- With nothing left to read, the read loop returns at once -/
theorem readLoop_done (fuel : Nat) (c : CSimpleFileCache) (pBuffer : Buffer) (readBytes : Nat)
    (script : List IoOutcome) (calls : List Int) :
    readLoop fuel c pBuffer 0 readBytes script calls
      = ⟨toInt32 readBytes, if readBytes > 0 then { c with m_space := true } else c, pBuffer, calls⟩ := by
  cases fuel <;> simp [readLoop]

/-- `WriteToCache` never moves the write cursor back and never moves the read
cursor, whatever the storage layer does. -/
theorem WriteToCache_cursors (c : CSimpleFileCache) (pBuffer : Buffer) (iSize : Nat)
    (script : List IoOutcome) :
    c.m_nWritePosition ≤ (c.WriteToCache pBuffer iSize script).cache.m_nWritePosition ∧
    (c.WriteToCache pBuffer iSize script).cache.m_nReadPosition = c.m_nReadPosition := by
  obtain ⟨new, _, _, e3, _, _, _, e7⟩ := writeLoop_spec pBuffer iSize c iSize 0 script [] (le_refl _)
  refine ⟨?_, e3⟩
  rcases e7 with ⟨_, _, _, a4, _⟩ | ⟨good, bad, _, a2, _, _, _, a6, _⟩
  · show c.m_nWritePosition ≤ (writeLoop pBuffer iSize c iSize 0 script []).cache.m_nWritePosition
    rw [a4]; omega
  · show c.m_nWritePosition ≤ (writeLoop pBuffer iSize c iSize 0 script []).cache.m_nWritePosition
    rw [a6]
    have := sum_nonneg_of_pos good a2
    omega

/-- The producer never moves the write cursor back and never moves the read
cursor. -/
theorem produce_cursors (ops : List ProducerOp) :
    ∀ c : CSimpleFileCache, c.m_nWritePosition ≤ (c.produce ops).m_nWritePosition ∧
      (c.produce ops).m_nReadPosition = c.m_nReadPosition := by
  induction ops with
  | nil => intro c; exact ⟨le_refl _, rfl⟩
  | cons op ops ih =>
    intro c
    cases op with
    | write p n s =>
      have h1 := WriteToCache_cursors c p n s
      have h2 := ih (c.WriteToCache p n s).cache
      simp only [produce]
      exact ⟨le_trans h1.1 h2.1, h2.2.trans h1.2⟩
    | endOfInput =>
      have h2 := ih c.EndOfInput
      simp only [produce]
      exact h2

/-- The wait loop never moves the write cursor back and never moves the read
cursor. -/
theorem waitLoop_cursors (iMinAvail : Nat) (env : List (List ProducerOp)) :
    ∀ (c : CSimpleFileCache) (waits : Nat),
      c.m_nWritePosition ≤ (waitLoop iMinAvail c env waits).cache.m_nWritePosition ∧
      (waitLoop iMinAvail c env waits).cache.m_nReadPosition = c.m_nReadPosition := by
  induction env with
  | nil =>
    intro c waits
    unfold waitLoop
    split_ifs <;> simp
  | cons ops env ih =>
    intro c waits
    have hp := produce_cursors ops c
    unfold waitLoop
    by_cases h1 : c.IsEndOfInput = true
    · simp [h1]
    · by_cases h2 : c.GetAvailableRead ≥ (iMinAvail : Int)
      · simp [h1, h2]
      · by_cases h3 : (c.produce ops).m_hDataAvailEvent = true
        · simp only [h1, h2, h3, if_true, if_false]
          have h4 := ih { c.produce ops with m_hDataAvailEvent := false } (waits + 1)
          exact ⟨le_trans hp.1 h4.1, h4.2.trans hp.2⟩
        · simp only [h1, h2, h3, if_false]
          exact hp

/-- `WaitForData` never moves the write cursor back and never moves the read
cursor. -/
theorem WaitForData_cursors (c : CSimpleFileCache) (iMinAvail iMillis : Nat)
    (env : List (List ProducerOp)) :
    c.m_nWritePosition ≤ (c.WaitForData iMinAvail iMillis env).cache.m_nWritePosition ∧
    (c.WaitForData iMinAvail iMillis env).cache.m_nReadPosition = c.m_nReadPosition := by
  unfold WaitForData
  split_ifs
  · exact ⟨le_refl _, rfl⟩
  · exact waitLoop_cursors iMinAvail env c 0

/-- With a buffer size that exists, `ReadFromCache` leaves the write cursor
alone and moves the read cursor forward by at most the available bytes. -/
theorem ReadFromCache_cursors (c : CSimpleFileCache) (pBuffer : Buffer) (iMaxSize : Nat)
    (script : List IoOutcome) (hsize : iMaxSize ≤ SSIZE_MAX) :
    (c.ReadFromCache pBuffer iMaxSize script).cache.m_nWritePosition = c.m_nWritePosition ∧
    c.m_nReadPosition ≤ (c.ReadFromCache pBuffer iMaxSize script).cache.m_nReadPosition ∧
    (c.ReadFromCache pBuffer iMaxSize script).cache.m_nReadPosition
      ≤ max c.m_nReadPosition c.m_nWritePosition := by
  by_cases hna : c.GetAvailableRead ≤ 0
  · simp [ReadFromCache, hna]
  · have havail : 0 < c.m_nWritePosition - c.m_nReadPosition := by
      have : ¬ c.m_nWritePosition - c.m_nReadPosition ≤ 0 := hna
      omega
    have hT := toRead_eq_min iMaxSize (c.m_nWritePosition - c.m_nReadPosition) havail hsize
    have hunf : c.ReadFromCache pBuffer iMaxSize script =
        readLoop
          (if toInt64 (iMaxSize : Int) > c.m_nWritePosition - c.m_nReadPosition
            then toSizeT (c.m_nWritePosition - c.m_nReadPosition) else iMaxSize)
          c pBuffer
          (if toInt64 (iMaxSize : Int) > c.m_nWritePosition - c.m_nReadPosition
            then toSizeT (c.m_nWritePosition - c.m_nReadPosition) else iMaxSize)
          0 script [] := by
      simp only [ReadFromCache, hna, if_false]
      rfl
    rw [hunf]
    generalize (if toInt64 (iMaxSize : Int) > c.m_nWritePosition - c.m_nReadPosition
            then toSizeT (c.m_nWritePosition - c.m_nReadPosition) else iMaxSize) = T at hT ⊢
    obtain ⟨new, -, -, e3, -, -, -, -, -, e9⟩ := readLoop_spec T c pBuffer T 0 script [] (le_refl _)
    refine ⟨e3, ?_⟩
    clear hunf
    rcases e9 with ⟨-, -, -, a4⟩ | ⟨good, k, -, -, -, a4, -, a6⟩ |
      ⟨good, bad, k, -, -, -, -, a5, -, a7⟩
    · rw [a4]
      refine ⟨by omega, le_trans ?_ (le_max_right _ _)⟩
      omega
    · rw [a6]
      refine ⟨by omega, le_trans ?_ (le_max_right _ _)⟩
      omega
    · rw [a7]
      refine ⟨by omega, le_trans ?_ (le_max_right _ _)⟩
      omega

/-- A `Seek` to a covered position waits for nothing, leaves the write cursor
alone, and leaves the read cursor at the target or, when the storage layer
refuses the seek, at -1. -/
theorem Seek_covered_cursors (c : CSimpleFileCache) (iFilePosition : Int)
    (env : List (List ProducerOp)) (ok : Bool) (h : c.IsCachedPosition iFilePosition = true) :
    (c.Seek iFilePosition env ok).cache.m_nWritePosition = c.m_nWritePosition ∧
    ((c.Seek iFilePosition env ok).cache.m_nReadPosition = iFilePosition - c.m_nStartPosition ∨
      (c.Seek iFilePosition env ok).cache.m_nReadPosition = -1) := by
  simp only [IsCachedPosition, Bool.and_eq_true, decide_eq_true_eq] at h
  have h1 : ¬ iFilePosition - c.m_nStartPosition < 0 := by omega
  have h2 : ¬ iFilePosition - c.m_nStartPosition - c.m_nWritePosition > 500000 := by omega
  have h3 : ¬ iFilePosition - c.m_nStartPosition - c.m_nWritePosition > 0 := by omega
  have h4 : ¬ (-1 : Int) = iFilePosition - c.m_nStartPosition := by omega
  unfold Seek
  simp only [h1, h2, h3, if_false, false_and, physSeekRead, seekTarget, SEEK_SET, if_true, or_false]
  cases ok <;> simp [h4]

/-- A `Reset` in which the storage layer rewinds the write handle leaves the
write cursor where it was or at 0, and the read cursor at most at the write
cursor, provided the write cursor was not negative. -/
theorem Reset_cursors (c : CSimpleFileCache) (iSourcePosition : Int) (clearAnyway okR : Bool)
    (h : 0 ≤ c.m_nWritePosition) :
    0 ≤ (c.Reset iSourcePosition clearAnyway true okR).2.m_nWritePosition ∧
    (c.Reset iSourcePosition clearAnyway true okR).2.m_nReadPosition
      ≤ (c.Reset iSourcePosition clearAnyway true okR).2.m_nWritePosition := by
  unfold Reset
  by_cases hc : (!clearAnyway && c.IsCachedPosition iSourcePosition) = true
  · simp only [hc, if_true]
    simp only [Bool.and_eq_true, IsCachedPosition, decide_eq_true_eq] at hc
    have h1 : ¬ iSourcePosition - c.m_nStartPosition < 0 := by omega
    simp only [physSeekRead, seekTarget, SEEK_SET, if_true, h1, or_false]
    cases okR <;> simp <;> omega
  · simp only [hc]
    simp only [physSeekRead, physSeekWrite, seekTarget, SEEK_SET, if_true]
    cases okR <;> simp

/-- Orderly calls keep the write cursor non-negative and the read cursor at or
behind it. -/
theorem run_orderly (ops : List Op) :
    ∀ c : CSimpleFileCache, 0 ≤ c.m_nWritePosition → c.m_nReadPosition ≤ c.m_nWritePosition →
      Orderly c ops →
      0 ≤ (c.run ops).m_nWritePosition ∧ (c.run ops).m_nReadPosition ≤ (c.run ops).m_nWritePosition := by
  induction ops with
  | nil => intro c h1 h2 _; exact ⟨h1, h2⟩
  | cons op ops ih =>
    intro c h1 h2 ho
    obtain ⟨ho1, ho2⟩ := ho
    have key : 0 ≤ (c.step op).m_nWritePosition ∧
        (c.step op).m_nReadPosition ≤ (c.step op).m_nWritePosition := by
      cases op with
      | writeToCache p n s =>
        have := WriteToCache_cursors c p n s
        simp only [step]; omega
      | readFromCache p n s =>
        have := ReadFromCache_cursors c p n s ho1
        simp only [step]; omega
      | waitForData m t env =>
        have := WaitForData_cursors c m t env
        simp only [step]; omega
      | seek pos env ok =>
        have hcov : c.IsCachedPosition pos = true := ho1
        have := Seek_covered_cursors c pos env ok hcov
        simp only [IsCachedPosition, Bool.and_eq_true, decide_eq_true_eq] at hcov
        simp only [step]; omega
      | seekWrite pos whence ok => exact absurd ho1 id
      | reset pos clear okW okR =>
        have hw : okW = true := ho1
        subst hw
        exact Reset_cursors c pos clear okR h1
      | endOfInput => exact ⟨h1, h2⟩
    exact ih (c.step op) key.1 key.2 ho2

/-- When the storage layer performs the read in full and the file holds the
bytes asked for, `ReadFromCache` makes one physical read of
`k = min(max_size, available)` bytes: the buffer receives the file's bytes from
the read handle's offset on, and the read cursor and the handle advance by `k`. -/
theorem ReadFromCache_full (c : CSimpleFileCache) (pBuffer : Buffer) (iMaxSize k : Nat)
    (havail : 0 < c.m_nWritePosition - c.m_nReadPosition) (hsize : iMaxSize ≤ SSIZE_MAX)
    (hk : (k : Int) = min (iMaxSize : Int) (c.m_nWritePosition - c.m_nReadPosition))
    (hpos : 0 < k) (hfile : c.m_cacheFileRead + k ≤ c.fileSize) :
    c.ReadFromCache pBuffer iMaxSize []
      = ⟨toInt32 k,
          { c with
            m_cacheFileRead := c.m_cacheFileRead + k
            m_nReadPosition := c.m_nReadPosition + k
            m_space := true },
          fun i => if i < k then c.fileData (c.m_cacheFileRead + i) else pBuffer i,
          [(k : Int)]⟩ := by
  have hT := toRead_eq_min iMaxSize (c.m_nWritePosition - c.m_nReadPosition) havail hsize
  have hna : ¬ c.GetAvailableRead ≤ 0 := by
    show ¬ c.m_nWritePosition - c.m_nReadPosition ≤ 0
    omega
  have hunf : c.ReadFromCache pBuffer iMaxSize [] =
      readLoop
        (if toInt64 (iMaxSize : Int) > c.m_nWritePosition - c.m_nReadPosition
          then toSizeT (c.m_nWritePosition - c.m_nReadPosition) else iMaxSize)
        c pBuffer
        (if toInt64 (iMaxSize : Int) > c.m_nWritePosition - c.m_nReadPosition
          then toSizeT (c.m_nWritePosition - c.m_nReadPosition) else iMaxSize)
        0 [] [] := by
    simp only [ReadFromCache, hna, if_false]
    rfl
  rw [hunf]
  generalize (if toInt64 (iMaxSize : Int) > c.m_nWritePosition - c.m_nReadPosition
          then toSizeT (c.m_nWritePosition - c.m_nReadPosition) else iMaxSize) = T at hT ⊢
  have hTk : T = k := by omega
  subst hTk
  have hle : ¬ T > SSIZE_MAX := by
    have : (T : Int) ≤ iMaxSize := by omega
    omega
  have hmin : min T (c.fileSize - c.m_cacheFileRead) = T := by omega
  have hne : ¬ (T : Int) = 0 := by omega
  have hnl : ¬ (T : Int) < 0 := by omega
  obtain ⟨m, rfl⟩ : ∃ m, T = m + 1 := ⟨T - 1, by omega⟩
  rw [readLoop]
  simp only [hpos, if_true, hle, if_false, physRead, List.head?_nil, hmin, hne, hnl,
    Int.toNat_ofNat, Nat.sub_self, List.tail_nil, List.nil_append, Nat.zero_add, readLoop_done,
    gt_iff_lt, reduceCtorEq]

/-- On a cache that holds the bytes `d`, with the read cursor and the read
handle both at offset `t`, a `ReadFromCache` of `n` bytes that the storage layer
performs in full delivers `d[t .. min(t+n, |d|))` and advances the read cursor
by that many bytes. -/
theorem ReadFromCache_delivers (c : CSimpleFileCache) (d : List Byte) (t n : Nat)
    (pBuffer : Buffer) (hd : c.Holds d) (hr : c.m_nReadPosition = (t : Int))
    (ho : c.m_cacheFileRead = t) (htd : t ≤ d.length) (hn : n ≤ SSIZE_MAX) :
    bufferBytes (c.ReadFromCache pBuffer n []).pBuffer (min n (d.length - t))
      = (d.drop t).take n ∧
    (c.ReadFromCache pBuffer n []).cache.m_nReadPosition
      = (t : Int) + (min n (d.length - t) : Nat) ∧
    (0 < min n (d.length - t) → min n (d.length - t) ≤ INT_MAX →
      (c.ReadFromCache pBuffer n []).ret = (min n (d.length - t) : Nat)) := by
  obtain ⟨hw, hsz, hdata⟩ := hd
  by_cases hk : min n (d.length - t) = 0
  · rw [hk]
    have hnil : (d.drop t).take n = [] := by
      apply List.eq_nil_of_length_eq_zero
      simp only [List.length_take, List.length_drop]
      exact hk
    rw [hnil]
    refine ⟨rfl, ?_, fun h => absurd h (lt_irrefl 0)⟩
    by_cases hna : c.GetAvailableRead ≤ 0
    · simp [ReadFromCache, hna, hr]
    · have hn0 : n = 0 := by
        have : ¬ c.m_nWritePosition - c.m_nReadPosition ≤ 0 := hna
        omega
      subst hn0
      have h0 : ¬ c.GetAvailableRead < toInt64 0 := by
        have h00 : toInt64 0 = 0 := by decide
        have : ¬ c.m_nWritePosition - c.m_nReadPosition ≤ 0 := hna
        rw [h00]
        show ¬ c.m_nWritePosition - c.m_nReadPosition < 0
        omega
      simp [ReadFromCache, hna, h0, readLoop, hr]
  · have hpos : 0 < min n (d.length - t) := Nat.pos_of_ne_zero hk
    have hfull := ReadFromCache_full c pBuffer n (min n (d.length - t))
      (by omega) hn (by omega) hpos (by omega)
    rw [hfull]
    refine ⟨?_, by simp [hr], fun _ hle => toInt32_of_le _ hle⟩
    apply List.ext_getElem
    · simp [bufferBytes, List.length_take, List.length_drop]
    · intro i hi1 hi2
      simp only [bufferBytes, List.length_map, List.length_range] at hi1
      simp only [bufferBytes, List.getElem_map, List.getElem_range, hi1, if_true,
        List.getElem_take, List.getElem_drop, ho]
      rw [hdata (t + i) (by omega)]
      rw [List.getD_eq_getElem _ _ (by omega)]

/-! ## The properties of the specification -/

/-- C1, at the failing input: on a freshly opened cache the bytes 1, 2, 3 are
written, the first physical write taking one byte, and then read back by one
`ReadFromCache` that the storage layer performs in full; no call reports an
error and nothing is left available, but the bytes delivered are 1, 1, 2. The
same happens when the write is performed in full and the read is short: the
bytes delivered are then 2, 3, 0. -/
theorem round_trip_diverges_on_short_transfer :
    (freshCache.WriteToCache (bufferOf [1, 2, 3]) 3 [IoOutcome.transfer 1]).ret = 3 ∧
    ((freshCache.WriteToCache (bufferOf [1, 2, 3]) 3 [IoOutcome.transfer 1]).cache.ReadFromCache
      (fun _ => 0) 3 []).ret = 3 ∧
    ((freshCache.WriteToCache (bufferOf [1, 2, 3]) 3 [IoOutcome.transfer 1]).cache.ReadFromCache
      (fun _ => 0) 3 []).cache.GetAvailableRead = 0 ∧
    bufferBytes ((freshCache.WriteToCache (bufferOf [1, 2, 3]) 3
      [IoOutcome.transfer 1]).cache.ReadFromCache (fun _ => 0) 3 []).pBuffer 3 = [1, 1, 2] ∧
    ((freshCache.WriteToCache (bufferOf [1, 2, 3]) 3 []).cache.ReadFromCache (fun _ => 0) 3
      [IoOutcome.transfer 1]).cache.GetAvailableRead = 0 ∧
    bufferBytes ((freshCache.WriteToCache (bufferOf [1, 2, 3]) 3 []).cache.ReadFromCache
      (fun _ => 0) 3 [IoOutcome.transfer 1]).pBuffer 3 = [2, 3, 0] := by
  decide

/-- C2, at the failing input: the bytes 1, 2, 3 are written and the first
physical write takes one byte; no physical write fails and the call returns 3,
but the second physical write starts again at the head of the buffer, so the
file holds 1, 1, 2 at the old write offset. -/
theorem WriteToCache_short_write_restarts_buffer :
    (freshCache.WriteToCache (bufferOf [1, 2, 3]) 3 [IoOutcome.transfer 1]).calls = [1, 2] ∧
    (freshCache.WriteToCache (bufferOf [1, 2, 3]) 3 [IoOutcome.transfer 1]).ret = 3 ∧
    (freshCache.WriteToCache (bufferOf [1, 2, 3]) 3 [IoOutcome.transfer 1]).cache.m_nWritePosition
      = 3 ∧
    bufferBytes (freshCache.WriteToCache (bufferOf [1, 2, 3]) 3 [IoOutcome.transfer 1]).cache.fileData 3
      = [1, 1, 2] ∧
    bufferBytes (bufferOf [1, 2, 3]) 3 = [1, 2, 3] := by
  decide

/-- C3, as amended: when no physical write fails, `WriteToCache` returns the
size converted to `int`, which is the size itself up to `INT_MAX`; the write
cursor advances by exactly the size, and the read cursor, the start position
and the end-of-input flag are unchanged. -/
theorem WriteToCache_result_and_cursor (c : CSimpleFileCache) (pBuffer : Buffer) (iSize : Nat)
    (script : List IoOutcome)
    (hok : ∀ v ∈ (c.WriteToCache pBuffer iSize script).calls, 0 < v) :
    (c.WriteToCache pBuffer iSize script).ret = toInt32 (iSize : Int) ∧
    (iSize ≤ INT_MAX → (c.WriteToCache pBuffer iSize script).ret = (iSize : Int)) ∧
    (c.WriteToCache pBuffer iSize script).cache.m_nWritePosition = c.m_nWritePosition + iSize ∧
    (c.WriteToCache pBuffer iSize script).cache.m_nReadPosition = c.m_nReadPosition ∧
    (c.WriteToCache pBuffer iSize script).cache.m_nStartPosition = c.m_nStartPosition ∧
    (c.WriteToCache pBuffer iSize script).cache.m_bEndOfInput = c.m_bEndOfInput := by
  obtain ⟨new, e1, e2, e3, e4, _, _, e7⟩ := writeLoop_spec pBuffer iSize c iSize 0 script [] (le_refl _)
  have hret : (c.WriteToCache pBuffer iSize script).ret = toInt32 (iSize : Int) ∧
      (c.WriteToCache pBuffer iSize script).cache.m_nWritePosition = c.m_nWritePosition + iSize := by
    rcases e7 with ⟨_, _, a3, a4, _⟩ | ⟨good, bad, a1, _, a3, _⟩
    · exact ⟨by simpa using a3, a4⟩
    · exfalso
      have hb : 0 < bad := hok bad (by
        show bad ∈ (writeLoop pBuffer iSize c iSize 0 script []).calls
        rw [e1, a1]; simp)
      omega
  refine ⟨hret.1, ?_, hret.2, e3, e2, e4⟩
  intro hle
  rw [hret.1]
  exact toInt32_of_le iSize hle

/-- Witness for C3: a three-byte write whose first physical write is short -/
theorem WriteToCache_result_and_cursor_witness :
    (freshCache.WriteToCache (bufferOf [1, 2, 3]) 3 [IoOutcome.transfer 1]).calls = [1, 2] ∧
    (freshCache.WriteToCache (bufferOf [1, 2, 3]) 3 [IoOutcome.transfer 1]).ret = 3 ∧
    (freshCache.WriteToCache (bufferOf [1, 2, 3]) 3 [IoOutcome.transfer 1]).cache.m_nWritePosition = 3 :=
  ⟨by decide,
    ((WriteToCache_result_and_cursor freshCache (bufferOf [1, 2, 3]) 3 [IoOutcome.transfer 1]
      (by decide)).2.1 (by decide)),
    ((WriteToCache_result_and_cursor freshCache (bufferOf [1, 2, 3]) 3 [IoOutcome.transfer 1]
      (by decide)).2.2.1)⟩

/-- C3, counterexample: a write of `2^31` bytes, which the storage layer takes
in two physical writes without failing, returns `-2^31`, not the number of
bytes written. -/
theorem WriteToCache_result_truncated :
    (freshCache.WriteToCache (fun _ => 0) (2 ^ 31) [IoOutcome.transfer 2147479552]).calls
      = [2147479552, 4096] ∧
    (freshCache.WriteToCache (fun _ => 0) (2 ^ 31)
      [IoOutcome.transfer 2147479552]).cache.m_nWritePosition = 2147483648 ∧
    (freshCache.WriteToCache (fun _ => 0) (2 ^ 31) [IoOutcome.transfer 2147479552]).ret
      = -2147483648 := by
  decide

/-- C4, as amended: when a physical write fails after others succeeded,
`WriteToCache` returns the error code, the write cursor stays advanced by the
bytes already written, the other cursors are unchanged, and the call does not
touch the data-available event. -/
theorem WriteToCache_failure_after_progress (c : CSimpleFileCache) (pBuffer : Buffer)
    (iSize : Nat) (script : List IoOutcome) (good : List Int) (bad : Int)
    (hcalls : (c.WriteToCache pBuffer iSize script).calls = good ++ [bad]) (hbad : bad ≤ 0) :
    (c.WriteToCache pBuffer iSize script).ret = CACHE_RC_ERROR ∧
    (∀ v ∈ good, 0 < v) ∧
    (c.WriteToCache pBuffer iSize script).cache.m_nWritePosition = c.m_nWritePosition + good.sum ∧
    (c.WriteToCache pBuffer iSize script).cache.m_nReadPosition = c.m_nReadPosition ∧
    (c.WriteToCache pBuffer iSize script).cache.m_nStartPosition = c.m_nStartPosition ∧
    (c.WriteToCache pBuffer iSize script).cache.m_hDataAvailEvent = c.m_hDataAvailEvent := by
  obtain ⟨new, e1, e2, e3, _, _, _, e7⟩ := writeLoop_spec pBuffer iSize c iSize 0 script [] (le_refl _)
  have hnew : new = good ++ [bad] := by
    have : (c.WriteToCache pBuffer iSize script).calls = [] ++ new := e1
    rw [hcalls] at this
    simpa using this.symm
  rcases e7 with ⟨a1, _⟩ | ⟨good1, bad1, a1, a2, _, _, a5, a6, a7⟩
  · exfalso
    have := a1 bad (by rw [hnew]; simp)
    omega
  · have h2 : good ++ [bad] = good1 ++ [bad1] := by rw [← hnew, a1]
    have h3 := List.append_inj' h2 rfl
    have hg : good = good1 := h3.1
    subst hg
    exact ⟨a5, a2, a6, e3, e2, a7⟩

/-- Witness for C4: of three bytes, one is written and the next write fails -/
theorem WriteToCache_failure_after_progress_witness :
    (freshCache.WriteToCache (bufferOf [1, 2, 3]) 3 [IoOutcome.transfer 1, IoOutcome.error]).ret
      = CACHE_RC_ERROR ∧
    (freshCache.WriteToCache (bufferOf [1, 2, 3]) 3
      [IoOutcome.transfer 1, IoOutcome.error]).cache.m_nWritePosition = 0 + [1].sum :=
  ⟨(WriteToCache_failure_after_progress freshCache (bufferOf [1, 2, 3]) 3
      [IoOutcome.transfer 1, IoOutcome.error] [1] (-1) (by decide) (by decide)).1,
    (WriteToCache_failure_after_progress freshCache (bufferOf [1, 2, 3]) 3
      [IoOutcome.transfer 1, IoOutcome.error] [1] (-1) (by decide) (by decide)).2.2.1⟩

/-- C4, counterexample: one byte is written, the next physical write fails, and
the data-available event is not signalled on return. -/
theorem WriteToCache_failure_no_signal :
    (freshCache.WriteToCache (bufferOf [1, 2, 3]) 3 [IoOutcome.transfer 1, IoOutcome.error]).calls
      = [1, -1] ∧
    (freshCache.WriteToCache (bufferOf [1, 2, 3]) 3 [IoOutcome.transfer 1, IoOutcome.error]).ret
      = CACHE_RC_ERROR ∧
    (freshCache.WriteToCache (bufferOf [1, 2, 3]) 3
      [IoOutcome.transfer 1, IoOutcome.error]).cache.m_nWritePosition = 1 ∧
    (freshCache.WriteToCache (bufferOf [1, 2, 3]) 3
      [IoOutcome.transfer 1, IoOutcome.error]).cache.m_hDataAvailEvent = false := by
  decide

/-- C5, as amended: `GetAvailableRead()` is `write_position - read_position` in
every state, and it is not negative after any sequence of orderly calls on a
freshly opened cache: `WriteToCache`, `WaitForData`, `EndOfInput`,
`ReadFromCache` with a size of at most `SSIZE_MAX`, `Seek` to a covered position,
and `Reset` with the write handle rewound. -/
theorem GetAvailableRead_nonneg_orderly (ops : List Op) (h : Orderly freshCache ops) :
    (∀ c : CSimpleFileCache, c.GetAvailableRead = c.m_nWritePosition - c.m_nReadPosition) ∧
    0 ≤ (freshCache.run ops).GetAvailableRead ∧
    (freshCache.run ops).m_nReadPosition ≤ (freshCache.run ops).m_nWritePosition := by
  have := run_orderly ops freshCache (by decide) (by decide) h
  refine ⟨fun _ => rfl, ?_, this.2⟩
  show 0 ≤ (freshCache.run ops).m_nWritePosition - (freshCache.run ops).m_nReadPosition
  omega

/-- Witness for C5: write three bytes, read two, seek back to position 1, reset
to position 2 -/
theorem GetAvailableRead_nonneg_orderly_witness :
    0 ≤ (freshCache.run [Op.writeToCache (bufferOf [1, 2, 3]) 3 [],
      Op.readFromCache (fun _ => 0) 2 [], Op.seek 1 [] true, Op.reset 2 false true true,
      Op.endOfInput]).GetAvailableRead :=
  (GetAvailableRead_nonneg_orderly [Op.writeToCache (bufferOf [1, 2, 3]) 3 [],
      Op.readFromCache (fun _ => 0) 2 [], Op.seek 1 [] true, Op.reset 2 false true true,
      Op.endOfInput]
    ⟨trivial, (by decide : 2 ≤ SSIZE_MAX), (by decide : CSimpleFileCache.IsCachedPosition _ 1 = true),
      rfl, trivial, trivial⟩).2.1

/-- C5, counterexample: after one byte is written and read, `SeekWrite(0)` from
the start puts the write cursor behind the read cursor and `GetAvailableRead()`
is -1. -/
theorem GetAvailableRead_negative_after_SeekWrite :
    (freshCache.run [Op.writeToCache (bufferOf [1]) 1 [], Op.readFromCache (fun _ => 0) 1 [],
      Op.seekWrite 0 SEEK_SET true]).GetAvailableRead = -1 := by
  decide

/-- C6: on a cache with nothing available, `ReadFromCache` returns 0 when
end-of-input is set, so in particular after `EndOfInput()`, and the would-block
code otherwise; it leaves the whole cache and the buffer as they were and makes
no physical read. -/
theorem ReadFromCache_empty (c : CSimpleFileCache) (pBuffer : Buffer) (iMaxSize : Nat)
    (script : List IoOutcome) (h : c.m_nWritePosition - c.m_nReadPosition ≤ 0) :
    (c.ReadFromCache pBuffer iMaxSize script).ret
      = (if c.m_bEndOfInput then 0 else CACHE_RC_WOULD_BLOCK) ∧
    (c.ReadFromCache pBuffer iMaxSize script).cache = c ∧
    (c.ReadFromCache pBuffer iMaxSize script).pBuffer = pBuffer ∧
    (c.ReadFromCache pBuffer iMaxSize script).calls = [] ∧
    (c.EndOfInput.ReadFromCache pBuffer iMaxSize script).ret = 0 ∧
    (c.EndOfInput.ReadFromCache pBuffer iMaxSize script).calls = [] := by
  have key : ∀ c1 : CSimpleFileCache, c1.GetAvailableRead ≤ 0 →
      c1.ReadFromCache pBuffer iMaxSize script
        = ⟨if c1.m_bEndOfInput then 0 else CACHE_RC_WOULD_BLOCK, c1, pBuffer, []⟩ := by
    intro c1 h1
    simp [ReadFromCache, h1]
  have h1 : c.GetAvailableRead ≤ 0 := h
  have h2 : c.EndOfInput.GetAvailableRead ≤ 0 := h
  rw [key c h1, key c.EndOfInput h2]
  exact ⟨rfl, rfl, rfl, rfl, rfl, rfl⟩

/-- Witness for C6: a fresh cache has nothing available -/
theorem ReadFromCache_empty_witness :
    (freshCache.ReadFromCache (fun _ => 0) 10 []).ret = CACHE_RC_WOULD_BLOCK ∧
    (freshCache.EndOfInput.ReadFromCache (fun _ => 0) 10 []).ret = 0 :=
  ⟨(ReadFromCache_empty freshCache (fun _ => 0) 10 [] (by decide)).1,
    (ReadFromCache_empty freshCache (fun _ => 0) 10 [] (by decide)).2.2.2.2.1⟩

/-- C7, as amended: with data available and a buffer size that exists (at most
`SSIZE_MAX`), `ReadFromCache` leaves the write cursor and the start position
alone, a non-negative result is at most `min(max_size, available)`, and the
read cursor never passes that amount. When `min(max_size, available)` is at
most `INT_MAX`, a non-negative result is the exact advance of the read cursor,
and it is `min(max_size, available)` when every physical read returns a
positive count. -/
theorem ReadFromCache_amount_and_cursor (c : CSimpleFileCache) (pBuffer : Buffer)
    (iMaxSize : Nat) (script : List IoOutcome)
    (havail : 0 < c.m_nWritePosition - c.m_nReadPosition) (hsize : iMaxSize ≤ SSIZE_MAX) :
    (c.ReadFromCache pBuffer iMaxSize script).cache.m_nWritePosition = c.m_nWritePosition ∧
    (c.ReadFromCache pBuffer iMaxSize script).cache.m_nStartPosition = c.m_nStartPosition ∧
    (0 ≤ (c.ReadFromCache pBuffer iMaxSize script).ret →
      (c.ReadFromCache pBuffer iMaxSize script).ret
        ≤ min (iMaxSize : Int) (c.m_nWritePosition - c.m_nReadPosition)) ∧
    (c.ReadFromCache pBuffer iMaxSize script).cache.m_nReadPosition
      ≤ c.m_nReadPosition + min (iMaxSize : Int) (c.m_nWritePosition - c.m_nReadPosition) ∧
    c.m_nReadPosition ≤ (c.ReadFromCache pBuffer iMaxSize script).cache.m_nReadPosition ∧
    (min (iMaxSize : Int) (c.m_nWritePosition - c.m_nReadPosition) ≤ INT_MAX →
      (0 ≤ (c.ReadFromCache pBuffer iMaxSize script).ret →
        (c.ReadFromCache pBuffer iMaxSize script).cache.m_nReadPosition
          = c.m_nReadPosition + (c.ReadFromCache pBuffer iMaxSize script).ret) ∧
      ((∀ v ∈ (c.ReadFromCache pBuffer iMaxSize script).calls, 0 < v) →
        (c.ReadFromCache pBuffer iMaxSize script).ret
          = min (iMaxSize : Int) (c.m_nWritePosition - c.m_nReadPosition))) := by
  have hT := toRead_eq_min iMaxSize (c.m_nWritePosition - c.m_nReadPosition) havail hsize
  have hna : ¬ c.GetAvailableRead ≤ 0 := by
    show ¬ c.m_nWritePosition - c.m_nReadPosition ≤ 0
    omega
  have hunf : c.ReadFromCache pBuffer iMaxSize script =
      readLoop
        (if toInt64 (iMaxSize : Int) > c.m_nWritePosition - c.m_nReadPosition
          then toSizeT (c.m_nWritePosition - c.m_nReadPosition) else iMaxSize)
        c pBuffer
        (if toInt64 (iMaxSize : Int) > c.m_nWritePosition - c.m_nReadPosition
          then toSizeT (c.m_nWritePosition - c.m_nReadPosition) else iMaxSize)
        0 script [] := by
    simp only [ReadFromCache, hna, if_false]
    rfl
  rw [hunf]
  generalize (if toInt64 (iMaxSize : Int) > c.m_nWritePosition - c.m_nReadPosition
          then toSizeT (c.m_nWritePosition - c.m_nReadPosition) else iMaxSize) = T at hT ⊢
  rw [← hT]
  obtain ⟨new, e1, e2, e3, _, _, _, _, _, e9⟩ := readLoop_spec T c pBuffer T 0 script [] (le_refl _)
  simp only [List.nil_append] at e1
  unfold INT_MAX
  refine ⟨e3, e2, ?_⟩
  rcases e9 with ⟨a1, a2, a3, a4⟩ | ⟨good, k, a1, a2, a3, a4, a5, a6⟩ |
    ⟨good, bad, k, a1, a2, a3, a4, a5, a6, a7⟩
  · rw [a3, a4]
    simp only [Nat.zero_add]
    refine ⟨toInt32_le_self T, le_refl _, by omega, fun hs => ⟨fun _ => ?_, fun _ => ?_⟩⟩ <;>
      rw [toInt32_of_le T (by unfold INT_MAX; omega)]
  · rw [a5, a6, e1]
    simp only [Nat.zero_add]
    refine ⟨fun h => ?_, by omega, by omega, fun hs => ⟨fun _ => ?_, fun hall => ?_⟩⟩
    · exact le_trans (toInt32_le_self k h) (by exact_mod_cast le_of_lt a4)
    · rw [toInt32_of_le k (by unfold INT_MAX; omega)]
    · exfalso
      have := hall 0 (by rw [a1]; simp)
      omega
  · rw [a6, a7, e1]
    refine ⟨fun h => ?_, by omega, by omega, fun hs => ⟨fun h => ?_, fun hall => ?_⟩⟩
    · unfold CACHE_RC_ERROR at h; omega
    · unfold CACHE_RC_ERROR at h; omega
    · exfalso
      have := hall bad (by rw [a1]; simp)
      omega

/-- Witness for C7: three bytes are available and a read of two is answered by
two physical reads of one byte each. -/
theorem ReadFromCache_amount_and_cursor_witness :
    ((freshCache.WriteToCache (bufferOf [1, 2, 3]) 3 []).cache.ReadFromCache (fun _ => 0) 2
      [IoOutcome.transfer 1]).calls = [1, 1] ∧
    ((freshCache.WriteToCache (bufferOf [1, 2, 3]) 3 []).cache.ReadFromCache (fun _ => 0) 2
      [IoOutcome.transfer 1]).ret = min ((2 : Nat) : Int)
        ((freshCache.WriteToCache (bufferOf [1, 2, 3]) 3 []).cache.m_nWritePosition
          - (freshCache.WriteToCache (bufferOf [1, 2, 3]) 3 []).cache.m_nReadPosition) :=
  ⟨by decide,
    ((ReadFromCache_amount_and_cursor (freshCache.WriteToCache (bufferOf [1, 2, 3]) 3 []).cache
      (fun _ => 0) 2 [IoOutcome.transfer 1] (by decide) (by decide)).2.2.2.2.2 (by decide)).2
      (by decide)⟩

/-- C7, counterexample: with `2^32 + 1` bytes available, a read of `2^32 + 1`
bytes whose physical reads all return positive counts returns 1, while the read
cursor advances by `2^32 + 1`. -/
theorem ReadFromCache_count_truncated :
    0 < (freshCache.WriteToCache (fun _ => 0) (2 ^ 32 + 1) []).cache.m_nWritePosition
      - (freshCache.WriteToCache (fun _ => 0) (2 ^ 32 + 1) []).cache.m_nReadPosition ∧
    (∀ v ∈ ((freshCache.WriteToCache (fun _ => 0) (2 ^ 32 + 1) []).cache.ReadFromCache
      (fun _ => 0) (2 ^ 32 + 1) [IoOutcome.transfer (2 ^ 31)]).calls, 0 < v) ∧
    ((freshCache.WriteToCache (fun _ => 0) (2 ^ 32 + 1) []).cache.ReadFromCache
      (fun _ => 0) (2 ^ 32 + 1) [IoOutcome.transfer (2 ^ 31)]).ret = 1 ∧
    ((freshCache.WriteToCache (fun _ => 0) (2 ^ 32 + 1) []).cache.ReadFromCache
      (fun _ => 0) (2 ^ 32 + 1) [IoOutcome.transfer (2 ^ 31)]).cache.m_nReadPosition
      = 0 + 4294967297 := by
  decide

/-- C8, at the failing input: the file holds 1, 2, 3, all of it available, and
the first physical read of a three-byte `ReadFromCache` returns one byte; the
call returns 3, but the second physical read fills the buffer from its head
again, so the buffer holds 2, 3 and its third byte is untouched. -/
theorem ReadFromCache_short_read_restarts_buffer :
    bufferBytes (freshCache.WriteToCache (bufferOf [1, 2, 3]) 3 []).cache.fileData 3 = [1, 2, 3] ∧
    ((freshCache.WriteToCache (bufferOf [1, 2, 3]) 3 []).cache.ReadFromCache (fun _ => 0) 3
      [IoOutcome.transfer 1]).calls = [1, 2] ∧
    ((freshCache.WriteToCache (bufferOf [1, 2, 3]) 3 []).cache.ReadFromCache (fun _ => 0) 3
      [IoOutcome.transfer 1]).ret = 3 ∧
    ((freshCache.WriteToCache (bufferOf [1, 2, 3]) 3 []).cache.ReadFromCache (fun _ => 0) 3
      [IoOutcome.transfer 1]).cache.m_nReadPosition = 3 ∧
    bufferBytes ((freshCache.WriteToCache (bufferOf [1, 2, 3]) 3 []).cache.ReadFromCache
      (fun _ => 0) 3 [IoOutcome.transfer 1]).pBuffer 3 = [2, 3, 0] := by
  decide

/-- When the storage layer performs the read in one physical read: on a cache
that holds the written bytes `d`, a `Seek` to a covered source position `p` that
the storage layer performs succeeds, returns `p` and puts the read cursor at
`p - start_position`, leaving `|d| - (p - start_position)` bytes available; a
following `ReadFromCache` of `n` bytes, performed in full, delivers
`d[p-s .. min(p-s+n, |d|))` and advances the read cursor by that many bytes,
its result being that count whenever the count is positive and at most
`INT_MAX`. -/
theorem Seek_then_full_ReadFromCache (c : CSimpleFileCache) (d : List Byte) (p : Int) (n : Nat)
    (pBuffer : Buffer) (env : List (List ProducerOp))
    (hd : c.Holds d) (h1 : c.m_nStartPosition ≤ p) (h2 : p ≤ c.m_nStartPosition + d.length)
    (hn : n ≤ SSIZE_MAX) :
    (c.Seek p env true).ret = p ∧
    (c.Seek p env true).waits = 0 ∧
    (c.Seek p env true).cache.m_nReadPosition = p - c.m_nStartPosition ∧
    (c.Seek p env true).cache.GetAvailableRead = d.length - (p - c.m_nStartPosition) ∧
    bufferBytes (((c.Seek p env true).cache.ReadFromCache pBuffer n []).pBuffer)
        (min n (d.length - (p - c.m_nStartPosition).toNat))
      = (d.drop (p - c.m_nStartPosition).toNat).take n ∧
    ((c.Seek p env true).cache.ReadFromCache pBuffer n []).cache.m_nReadPosition
      = (p - c.m_nStartPosition) + (min n (d.length - (p - c.m_nStartPosition).toNat) : Nat) ∧
    (0 < min n (d.length - (p - c.m_nStartPosition).toNat) →
      min n (d.length - (p - c.m_nStartPosition).toNat) ≤ INT_MAX →
      ((c.Seek p env true).cache.ReadFromCache pBuffer n []).ret
        = (min n (d.length - (p - c.m_nStartPosition).toNat) : Nat)) := by
  obtain ⟨hw, hsz, hdata⟩ := hd
  obtain ⟨t, ht⟩ : ∃ t : Nat, p - c.m_nStartPosition = (t : Int) :=
    ⟨(p - c.m_nStartPosition).toNat, by omega⟩
  have htd : t ≤ d.length := by omega
  have e1 : ¬ (t : Int) < 0 := by omega
  have e2 : ¬ (t : Int) - c.m_nWritePosition > 500000 := by omega
  have e3 : ¬ (t : Int) - c.m_nWritePosition > 0 := by omega
  have hseek : c.Seek p env true
      = ⟨p, { c with m_cacheFileRead := t, m_nReadPosition := (t : Int), m_space := true }, 0⟩ := by
    unfold Seek
    rw [ht]
    simp only [e1, e2, e3, if_false, false_and, physSeekRead, seekTarget, SEEK_SET, if_true,
      Bool.true_eq_false, false_or, ne_eq, not_true_eq_false, Int.toNat_ofNat]
  rw [hseek, ht]
  simp only [Int.toNat_ofNat]
  refine ⟨trivial, trivial, trivial, ?_, ?_⟩
  · show c.m_nWritePosition - (t : Int) = (d.length : Int) - (t : Int)
    rw [hw]
  · exact ReadFromCache_delivers _ d t n pBuffer ⟨hw, hsz, hdata⟩ rfl rfl htd hn

/-- C9, at the failing input: the bytes 1, 2, 3, 4, 5 are cached from source
position 10 on. `Seek(12)` returns 12 and puts the read cursor at 2, leaving 3
bytes available, as the claim says. The `ReadFromCache` of two bytes that
follows, whose first physical read returns one byte, makes two physical reads
of one byte each, returns 2 and advances the read cursor to 4; but the second
physical read fills the buffer from its head again, so the buffer holds 4, 0
and not the bytes 3, 4 of the source positions 12 and 13. The same read
performed in one physical read delivers 3, 4. -/
theorem Seek_then_short_read_restarts_buffer :
    ((freshCache.Reset 10 true true true).2.WriteToCache
      (bufferOf [1, 2, 3, 4, 5]) 5 []).cache.m_nStartPosition = 10 ∧
    ((freshCache.Reset 10 true true true).2.WriteToCache
      (bufferOf [1, 2, 3, 4, 5]) 5 []).cache.m_nWritePosition = 5 ∧
    bufferBytes ((freshCache.Reset 10 true true true).2.WriteToCache
      (bufferOf [1, 2, 3, 4, 5]) 5 []).cache.fileData 5 = [1, 2, 3, 4, 5] ∧
    (((freshCache.Reset 10 true true true).2.WriteToCache
      (bufferOf [1, 2, 3, 4, 5]) 5 []).cache.Seek 12 [] true).ret = 12 ∧
    (((freshCache.Reset 10 true true true).2.WriteToCache
      (bufferOf [1, 2, 3, 4, 5]) 5 []).cache.Seek 12 [] true).cache.m_nReadPosition = 2 ∧
    (((freshCache.Reset 10 true true true).2.WriteToCache
      (bufferOf [1, 2, 3, 4, 5]) 5 []).cache.Seek 12 [] true).cache.GetAvailableRead = 3 ∧
    ((((freshCache.Reset 10 true true true).2.WriteToCache
      (bufferOf [1, 2, 3, 4, 5]) 5 []).cache.Seek 12 [] true).cache.ReadFromCache (fun _ => 0) 2
      [IoOutcome.transfer 1]).calls = [1, 1] ∧
    ((((freshCache.Reset 10 true true true).2.WriteToCache
      (bufferOf [1, 2, 3, 4, 5]) 5 []).cache.Seek 12 [] true).cache.ReadFromCache (fun _ => 0) 2
      [IoOutcome.transfer 1]).ret = 2 ∧
    ((((freshCache.Reset 10 true true true).2.WriteToCache
      (bufferOf [1, 2, 3, 4, 5]) 5 []).cache.Seek 12 [] true).cache.ReadFromCache (fun _ => 0) 2
      [IoOutcome.transfer 1]).cache.m_nReadPosition = 4 ∧
    bufferBytes ((((freshCache.Reset 10 true true true).2.WriteToCache
      (bufferOf [1, 2, 3, 4, 5]) 5 []).cache.Seek 12 [] true).cache.ReadFromCache (fun _ => 0) 2
      [IoOutcome.transfer 1]).pBuffer 2 = [4, 0] ∧
    bufferBytes ((((freshCache.Reset 10 true true true).2.WriteToCache
      (bufferOf [1, 2, 3, 4, 5]) 5 []).cache.Seek 12 [] true).cache.ReadFromCache (fun _ => 0) 2
      [IoOutcome.transfer 1]).pBuffer 2 ≠ (([1, 2, 3, 4, 5] : List Byte).drop 2).take 2 ∧
    bufferBytes ((((freshCache.Reset 10 true true true).2.WriteToCache
      (bufferOf [1, 2, 3, 4, 5]) 5 []).cache.Seek 12 [] true).cache.ReadFromCache (fun _ => 0) 2
      []).pBuffer 2 = [3, 4] := by
  decide

/-- C10: a `Seek` to a position before the start of the window, or more than
500000 bytes past the write cursor, returns the error code without waiting on
the event and leaves the whole cache as it was. -/
theorem Seek_out_of_range (c : CSimpleFileCache) (iFilePosition : Int)
    (env : List (List ProducerOp)) (ok : Bool)
    (h : iFilePosition < c.m_nStartPosition ∨
      iFilePosition - c.m_nStartPosition - c.m_nWritePosition > 500000) :
    (c.Seek iFilePosition env ok).ret = CACHE_RC_ERROR ∧
    (c.Seek iFilePosition env ok).waits = 0 ∧
    (c.Seek iFilePosition env ok).cache = c := by
  unfold Seek
  by_cases h1 : iFilePosition - c.m_nStartPosition < 0
  · simp [h1]
  · have h2 : iFilePosition - c.m_nStartPosition - c.m_nWritePosition > 500000 := by omega
    simp [h1, h2]

/-- Witness for C10: on a fresh cache, position -1 is before the window and
position 500001 is too far ahead. -/
theorem Seek_out_of_range_witness :
    (freshCache.Seek (-1) [] true).ret = CACHE_RC_ERROR ∧
    (freshCache.Seek 500001 [[ProducerOp.endOfInput]] true).ret = CACHE_RC_ERROR ∧
    (freshCache.Seek 500001 [[ProducerOp.endOfInput]] true).waits = 0 :=
  ⟨(Seek_out_of_range freshCache (-1) [] true (Or.inl (by decide))).1,
    (Seek_out_of_range freshCache 500001 [[ProducerOp.endOfInput]] true (Or.inr (by decide))).1,
    (Seek_out_of_range freshCache 500001 [[ProducerOp.endOfInput]] true (Or.inr (by decide))).2.1⟩

end CSimpleFileCache
end XFILE

/-! ## The loops never run out of iterations; the scenario of the specification -/

namespace XFILE
namespace CSimpleFileCache

/-- One more iteration allowed changes nothing once `iSize` iterations are
allowed: the write loop never runs out of iterations. -/
theorem writeLoop_fuel_succ (p : Buffer) :
    ∀ (fuel : Nat) (c : CSimpleFileCache) (iSize written : Nat) (script : List IoOutcome)
      (calls : List Int), iSize ≤ fuel →
      writeLoop p (fuel + 1) c iSize written script calls
        = writeLoop p fuel c iSize written script calls := by
  intro fuel
  induction fuel with
  | zero =>
    intro c iSize written script calls h
    have h0 : iSize = 0 := by omega
    subst h0
    simp [writeLoop]
  | succ fuel ih =>
    intro c iSize written script calls h
    by_cases hs : iSize > 0
    · rw [writeLoop, writeLoop]
      simp only [hs, if_true]
      generalize c.physWrite p (if iSize > SSIZE_MAX then SSIZE_MAX else iSize) script.head? = r
      by_cases hle : r.1 ≤ 0
      · simp only [hle, if_true]
      · simp only [hle, if_false]
        exact ih _ _ _ _ _ (by omega)
    · have h0 : iSize = 0 := by omega
      subst h0
      simp [writeLoop]

/-- The write loop does the same with any number of allowed iterations from
`iSize` on. -/
theorem writeLoop_fuel (p : Buffer) (c : CSimpleFileCache) (iSize written : Nat)
    (script : List IoOutcome) (calls : List Int) :
    ∀ extra : Nat, writeLoop p (iSize + extra) c iSize written script calls
      = writeLoop p iSize c iSize written script calls := by
  intro extra
  induction extra with
  | zero => rfl
  | succ extra ih =>
    rw [← ih]
    exact writeLoop_fuel_succ p (iSize + extra) c iSize written script calls (by omega)

/-- One more iteration allowed changes nothing once `toRead` iterations are
allowed: the read loop never runs out of iterations. -/
theorem readLoop_fuel_succ :
    ∀ (fuel : Nat) (c : CSimpleFileCache) (pBuffer : Buffer) (toRead readBytes : Nat)
      (script : List IoOutcome) (calls : List Int), toRead ≤ fuel →
      readLoop (fuel + 1) c pBuffer toRead readBytes script calls
        = readLoop fuel c pBuffer toRead readBytes script calls := by
  intro fuel
  induction fuel with
  | zero =>
    intro c pBuffer toRead readBytes script calls h
    have h0 : toRead = 0 := by omega
    subst h0
    simp [readLoop]
  | succ fuel ih =>
    intro c pBuffer toRead readBytes script calls h
    by_cases hs : toRead > 0
    · rw [readLoop, readLoop]
      simp only [hs, if_true]
      generalize c.physRead pBuffer (if toRead > SSIZE_MAX then SSIZE_MAX else toRead) script.head? = r
      by_cases hz : r.1 = 0
      · simp only [hz, if_true]
      · by_cases hlt : r.1 < 0
        · simp only [hz, hlt, if_true, if_false]
        · simp only [hz, hlt, if_false]
          exact ih _ _ _ _ _ _ (by omega)
    · have h0 : toRead = 0 := by omega
      subst h0
      simp [readLoop]

/-- The read loop does the same with any number of allowed iterations from
`toRead` on. -/
theorem readLoop_fuel (c : CSimpleFileCache) (pBuffer : Buffer) (toRead readBytes : Nat)
    (script : List IoOutcome) (calls : List Int) :
    ∀ extra : Nat, readLoop (toRead + extra) c pBuffer toRead readBytes script calls
      = readLoop toRead c pBuffer toRead readBytes script calls := by
  intro extra
  induction extra with
  | zero => rfl
  | succ extra ih =>
    rw [← ih]
    exact readLoop_fuel_succ (toRead + extra) c pBuffer toRead readBytes script calls (by omega)

set_option maxRecDepth 100000 in
/-- The round-trip scenario of the specification, evaluated: 1000 bytes are
written at source position 0; `WaitForData(1000, 100)` returns 1000 without
waiting; a read of 500 bytes returns 500 and leaves 500 available; `Seek(200)`
succeeds, and the next read of 500 bytes returns the bytes 200..699 of the
original sequence. -/
theorem round_trip_scenario :
    (freshCache.WriteToCache (fun i => Fin.ofNat i) 1000 []).ret = 1000 ∧
    ((freshCache.WriteToCache (fun i => Fin.ofNat i) 1000 []).cache.WaitForData 1000 100 []).ret
      = 1000 ∧
    ((freshCache.WriteToCache (fun i => Fin.ofNat i) 1000 []).cache.WaitForData 1000 100 []).waits
      = 0 ∧
    ((freshCache.WriteToCache (fun i => Fin.ofNat i) 1000 []).cache.ReadFromCache (fun _ => 0) 500
      []).ret = 500 ∧
    ((freshCache.WriteToCache (fun i => Fin.ofNat i) 1000 []).cache.ReadFromCache (fun _ => 0) 500
      []).cache.GetAvailableRead = 500 ∧
    (((freshCache.WriteToCache (fun i => Fin.ofNat i) 1000 []).cache.ReadFromCache (fun _ => 0) 500
      []).cache.Seek 200 [] true).ret = 200 ∧
    ((((freshCache.WriteToCache (fun i => Fin.ofNat i) 1000 []).cache.ReadFromCache (fun _ => 0) 500
      []).cache.Seek 200 [] true).cache.ReadFromCache (fun _ => 0) 500 []).ret = 500 ∧
    bufferBytes
      (((((freshCache.WriteToCache (fun i => Fin.ofNat i) 1000 []).cache.ReadFromCache
        (fun _ => 0) 500 []).cache.Seek 200 [] true).cache.ReadFromCache (fun _ => 0) 500 []).pBuffer)
      500
      = ((bufferBytes (fun i => Fin.ofNat i) 1000).drop 200).take 500 := by
  decide

end CSimpleFileCache
end XFILE

/-! ## Seek past the data, waiting, Reset and SeekWrite of the Basic Cache -/

namespace XFILE
namespace CSimpleFileCache

/-- What the wait loop returns is the timeout code, or the availability of the
cache it leaves, in which case end-of-input is set or the availability is at
least `iMinAvail`. -/
theorem waitLoop_ret (iMinAvail : Nat) (env : List (List ProducerOp)) :
    ∀ (c : CSimpleFileCache) (waits : Nat),
      (waitLoop iMinAvail c env waits).ret = CACHE_RC_TIMEOUT ∨
      ((waitLoop iMinAvail c env waits).ret = (waitLoop iMinAvail c env waits).cache.GetAvailableRead ∧
        ((waitLoop iMinAvail c env waits).cache.m_bEndOfInput = true ∨
          (iMinAvail : Int) ≤ (waitLoop iMinAvail c env waits).cache.GetAvailableRead)) := by
  induction env with
  | nil =>
    intro c waits
    by_cases h1 : c.m_bEndOfInput = true
    · right; simp [waitLoop, IsEndOfInput, h1]
    · by_cases h2 : c.GetAvailableRead ≥ (iMinAvail : Int)
      · right; simp [waitLoop, IsEndOfInput, h1, h2]
      · left
        by_cases h3 : c.m_hDataAvailEvent = true <;> simp [waitLoop, IsEndOfInput, h1, h2, h3]
  | cons ops env ih =>
    intro c waits
    by_cases h1 : c.m_bEndOfInput = true
    · right; simp [waitLoop, IsEndOfInput, h1]
    · by_cases h2 : c.GetAvailableRead ≥ (iMinAvail : Int)
      · right; simp [waitLoop, IsEndOfInput, h1, h2]
      · by_cases h3 : (c.produce ops).m_hDataAvailEvent = true
        · have hunf : waitLoop iMinAvail c (ops :: env) waits
              = waitLoop iMinAvail { c.produce ops with m_hDataAvailEvent := false } env
                  (waits + 1) := by
            simp [waitLoop, IsEndOfInput, h1, h2, h3]
          rw [hunf]
          exact ih _ _
        · left; simp [waitLoop, IsEndOfInput, h1, h2, h3]

/-- A `Seek` that does not return the error code, made with the read cursor at
most 2^32 - 1 bytes behind the target and leaving end-of-input clear, leaves
the read cursor at the target and at or behind the write cursor. -/
theorem Seek_success_within_data (c : CSimpleFileCache) (iFilePosition : Int)
    (env : List (List ProducerOp)) (ok : Bool)
    (hret : (c.Seek iFilePosition env ok).ret ≠ CACHE_RC_ERROR)
    (hclose : iFilePosition - c.m_nStartPosition - c.m_nReadPosition < 2 ^ 32)
    (hrw : c.m_nReadPosition ≤ c.m_nWritePosition)
    (heoi : (c.Seek iFilePosition env ok).cache.m_bEndOfInput = false) :
    (c.Seek iFilePosition env ok).cache.m_nReadPosition = iFilePosition - c.m_nStartPosition ∧
    (c.Seek iFilePosition env ok).cache.m_nReadPosition
      ≤ (c.Seek iFilePosition env ok).cache.m_nWritePosition := by
  unfold Seek at hret heoi ⊢
  by_cases h1 : iFilePosition - c.m_nStartPosition < 0
  · simp [h1] at hret
  · by_cases h2 : iFilePosition - c.m_nStartPosition - c.m_nWritePosition > 500000
    · simp [h1, h2] at hret
    · simp only [h1, h2, if_false] at hret heoi ⊢
      by_cases h3 : iFilePosition - c.m_nStartPosition - c.m_nWritePosition > 0
      · simp only [h3, if_true, true_and] at hret heoi ⊢
        have hmin : ((toUInt32 (iFilePosition - c.m_nStartPosition - c.m_nReadPosition) : Nat) : Int)
            = iFilePosition - c.m_nStartPosition - c.m_nReadPosition := by
          unfold toUInt32
          omega
        generalize toUInt32 (iFilePosition - c.m_nStartPosition - c.m_nReadPosition) = m
          at hret heoi hmin ⊢
        have hcur := WaitForData_cursors c m 5000 env
        have hw : (c.WaitForData m 5000 env).ret = CACHE_RC_TIMEOUT ∨
            ((c.WaitForData m 5000 env).cache.m_bEndOfInput = true ∨
              (m : Int) ≤ (c.WaitForData m 5000 env).cache.GetAvailableRead) := by
          unfold WaitForData
          by_cases hq : (5000 : Nat) = 0 ∨ c.IsEndOfInput = true
          · simp only [hq, if_true]
            rcases hq with hq | hq
            · exact absurd hq (by decide)
            · exact Or.inr (Or.inl hq)
          · simp only [hq, if_false]
            rcases waitLoop_ret m env c 0 with h | h
            · exact Or.inl h
            · exact Or.inr h.2
        generalize c.WaitForData m 5000 env = w at hret heoi hcur hw ⊢
        by_cases ht : w.ret = CACHE_RC_TIMEOUT
        · simp [ht] at hret
        · simp only [ht, if_false] at hret heoi ⊢
          simp only [physSeekRead, seekTarget, SEEK_SET, if_true] at hret heoi ⊢
          by_cases hk : ok = false ∨ iFilePosition - c.m_nStartPosition < 0
          · simp only [hk, if_true] at hret
            have : ¬ (-1 : Int) = iFilePosition - c.m_nStartPosition := by omega
            simp [this] at hret
          · simp only [hk, if_false, ne_eq, not_true_eq_false] at hret heoi ⊢
            rcases hw with hw | hw | hw
            · exact absurd hw ht
            · rw [hw] at heoi; exact absurd heoi (by decide)
            · refine ⟨by simp, ?_⟩
              have hg : w.cache.GetAvailableRead = w.cache.m_nWritePosition - w.cache.m_nReadPosition := rfl
              show iFilePosition - c.m_nStartPosition ≤ w.cache.m_nWritePosition
              omega
      · simp only [h3, if_false, false_and] at hret heoi ⊢
        simp only [physSeekRead, seekTarget, SEEK_SET, if_true] at hret heoi ⊢
        by_cases hk : ok = false ∨ iFilePosition - c.m_nStartPosition < 0
        · simp only [hk, if_true] at hret
          have : ¬ (-1 : Int) = iFilePosition - c.m_nStartPosition := by omega
          simp [this] at hret
        · simp only [hk, if_false, ne_eq, not_true_eq_false] at hret heoi ⊢
          refine ⟨by simp, ?_⟩
          show iFilePosition - c.m_nStartPosition ≤ c.m_nWritePosition
          omega

/-- C11, at the failing inputs. First: three bytes are cached and the input has
ended; `Seek(5)` returns 5, success, with the read cursor at 5 and the write
cursor at 3, so `GetAvailableRead()` is -2. Second: `2^32` bytes are cached,
none read, the input has not ended and the producer writes nothing more;
`Seek(2^32 + 1)` asks `WaitForData` for `(unsigned int)(2^32 + 1) = 1` byte, which
returns at once, and the seek succeeds with the read cursor one byte past the
write cursor. -/
theorem Seek_lands_past_data :
    ((freshCache.WriteToCache (bufferOf [1, 2, 3]) 3 []).cache.EndOfInput.Seek 5 [] true).ret = 5 ∧
    ((freshCache.WriteToCache (bufferOf [1, 2, 3]) 3 []).cache.EndOfInput.Seek 5 []
      true).cache.m_nReadPosition = 5 ∧
    ((freshCache.WriteToCache (bufferOf [1, 2, 3]) 3 []).cache.EndOfInput.Seek 5 []
      true).cache.m_nWritePosition = 3 ∧
    ((freshCache.WriteToCache (bufferOf [1, 2, 3]) 3 []).cache.EndOfInput.Seek 5 []
      true).cache.GetAvailableRead = -2 ∧
    (freshCache.WriteToCache (fun _ => 0) (2 ^ 32) []).cache.m_nReadPosition = 0 ∧
    (freshCache.WriteToCache (fun _ => 0) (2 ^ 32) []).cache.m_nWritePosition = 4294967296 ∧
    (freshCache.WriteToCache (fun _ => 0) (2 ^ 32) []).cache.m_bEndOfInput = false ∧
    ((freshCache.WriteToCache (fun _ => 0) (2 ^ 32) []).cache.Seek 4294967297 [] true).ret
      = 4294967297 ∧
    ((freshCache.WriteToCache (fun _ => 0) (2 ^ 32) []).cache.Seek 4294967297 [] true).waits = 0 ∧
    ((freshCache.WriteToCache (fun _ => 0) (2 ^ 32) []).cache.Seek 4294967297 []
      true).cache.m_nReadPosition = 4294967297 ∧
    ((freshCache.WriteToCache (fun _ => 0) (2 ^ 32) []).cache.Seek 4294967297 []
      true).cache.m_nWritePosition = 4294967296 := by
  decide

end CSimpleFileCache
end XFILE

namespace XFILE
namespace CSimpleFileCache

/-- C12: when the timeout is 0, or end-of-input is set, or at least `min_bytes`
are available at entry, `WaitForData` returns
`write_position - read_position` without waiting on the event and leaves the
whole cache as it was, whatever `min_bytes` is and whatever the producer would
do. -/
theorem WaitForData_without_waiting (c : CSimpleFileCache) (iMinAvail iMillis : Nat)
    (env : List (List ProducerOp))
    (h : iMillis = 0 ∨ c.m_bEndOfInput = true ∨
      (iMinAvail : Int) ≤ c.m_nWritePosition - c.m_nReadPosition) :
    (c.WaitForData iMinAvail iMillis env).ret = c.m_nWritePosition - c.m_nReadPosition ∧
    (c.WaitForData iMinAvail iMillis env).waits = 0 ∧
    (c.WaitForData iMinAvail iMillis env).cache = c := by
  by_cases h1 : iMillis = 0 ∨ c.IsEndOfInput = true
  · simp only [WaitForData, h1, if_true]
    exact ⟨rfl, trivial, trivial⟩
  · have h2 : c.GetAvailableRead ≥ (iMinAvail : Int) := by
      rcases h with h | h | h
      · exact absurd (Or.inl h) h1
      · exact absurd (Or.inr h) h1
      · exact h
    have h3 : ¬ c.IsEndOfInput = true := fun hh => h1 (Or.inr hh)
    simp only [WaitForData, h1, if_false]
    cases env <;> simp [waitLoop, h2, h3] <;> rfl

/-- Witness for C12: a fresh cache polled with timeout 0 for 10 bytes; a cache
whose input has ended; and a cache with three bytes available asked for two. -/
theorem WaitForData_without_waiting_witness :
    (freshCache.WaitForData 10 0 [[ProducerOp.endOfInput]]).ret = 0 ∧
    (freshCache.EndOfInput.WaitForData 10 100 []).waits = 0 ∧
    ((freshCache.WriteToCache (bufferOf [1, 2, 3]) 3 []).cache.WaitForData 2 100 []).ret = 3 - 0 :=
  ⟨(WaitForData_without_waiting freshCache 10 0 [[ProducerOp.endOfInput]] (Or.inl rfl)).1,
    (WaitForData_without_waiting freshCache.EndOfInput 10 100 [] (Or.inr (Or.inl rfl))).2.1,
    (WaitForData_without_waiting (freshCache.WriteToCache (bufferOf [1, 2, 3]) 3 []).cache 2 100 []
      (Or.inr (Or.inr (by decide)))).1⟩

/-- C13: for a covered position `p`, `Reset(p, false)` returns "not cleared" and
leaves the start position, the write cursor, the file and the end-of-input flag
as they were, so `CachedDataEndPos()` and `IsCachedPosition` are unchanged; when
the storage layer performs the seek of the read handle, the read cursor is at
`p - start_position`. -/
theorem Reset_retains (c : CSimpleFileCache) (p : Int) (okW okR : Bool)
    (h1 : c.m_nStartPosition ≤ p) (h2 : p ≤ c.m_nStartPosition + c.m_nWritePosition) :
    (c.Reset p false okW okR).1 = false ∧
    (c.Reset p false okW okR).2.m_nStartPosition = c.m_nStartPosition ∧
    (c.Reset p false okW okR).2.m_nWritePosition = c.m_nWritePosition ∧
    (c.Reset p false okW okR).2.fileData = c.fileData ∧
    (c.Reset p false okW okR).2.fileSize = c.fileSize ∧
    (c.Reset p false okW okR).2.m_bEndOfInput = c.m_bEndOfInput ∧
    (c.Reset p false okW okR).2.CachedDataEndPos = c.CachedDataEndPos ∧
    (∀ q : Int, (c.Reset p false okW okR).2.IsCachedPosition q = c.IsCachedPosition q) ∧
    (c.Reset p false okW true).2.m_nReadPosition = p - c.m_nStartPosition := by
  have hc : (!false && c.IsCachedPosition p) = true := by
    simp [IsCachedPosition, h1, h2]
  have hn : ¬ p - c.m_nStartPosition < 0 := by omega
  have key : ∀ ok : Bool, c.Reset p false okW ok
      = (false, { (c.physSeekRead (p - c.m_nStartPosition) SEEK_SET ok).2 with
          m_nReadPosition := (c.physSeekRead (p - c.m_nStartPosition) SEEK_SET ok).1 }) := by
    intro ok
    simp only [Reset, hc, if_true]
  rw [key okR, key true]
  simp only [physSeekRead, seekTarget, SEEK_SET, if_true, hn, or_false]
  cases okR <;> simp [CachedDataEndPos, IsCachedPosition]

/-- Witness for C13: three bytes are cached from source position 10 on and the
reset goes to position 12. -/
theorem Reset_retains_witness :
    (((freshCache.Reset 10 true true true).2.WriteToCache (bufferOf [1, 2, 3]) 3 []).cache.Reset 12
      false true true).1 = false ∧
    (((freshCache.Reset 10 true true true).2.WriteToCache (bufferOf [1, 2, 3]) 3 []).cache.Reset 12
      false true true).2.m_nReadPosition = 12 - 10 :=
  ⟨(Reset_retains ((freshCache.Reset 10 true true true).2.WriteToCache (bufferOf [1, 2, 3]) 3 []).cache
      12 true true (by decide) (by decide)).1,
    (Reset_retains ((freshCache.Reset 10 true true true).2.WriteToCache (bufferOf [1, 2, 3]) 3 []).cache
      12 true true (by decide) (by decide)).2.2.2.2.2.2.2.2⟩

/-- C14: `Reset(p, c)` returns "cleared" exactly when `c` is true or `p` is
outside `[start_position, start_position + write_position]`; it then sets the
start position to `p` and, the storage layer performing the two seeks, both
cursors to 0. In particular `Reset(p, true)` always clears, and
`Reset(5000, false)` on a freshly opened cache clears and sets the start position
to 5000. -/
theorem Reset_clears (c : CSimpleFileCache) (p : Int) (clearAnyway okW okR : Bool) :
    ((c.Reset p clearAnyway okW okR).1 = true ↔
      (clearAnyway = true ∨ p < c.m_nStartPosition ∨
        c.m_nStartPosition + c.m_nWritePosition < p)) ∧
    ((c.Reset p clearAnyway okW okR).1 = true →
      (c.Reset p clearAnyway okW okR).2.m_nStartPosition = p) ∧
    ((c.Reset p clearAnyway true true).1 = true →
      (c.Reset p clearAnyway true true).2.m_nStartPosition = p ∧
      (c.Reset p clearAnyway true true).2.m_nWritePosition = 0 ∧
      (c.Reset p clearAnyway true true).2.m_nReadPosition = 0) ∧
    (c.Reset p true okW okR).1 = true ∧
    (freshCache.Reset 5000 false true true).1 = true ∧
    (freshCache.Reset 5000 false true true).2.m_nStartPosition = 5000 ∧
    (freshCache.Reset 5000 false true true).2.m_nWritePosition = 0 ∧
    (freshCache.Reset 5000 false true true).2.m_nReadPosition = 0 := by
  have key : ∀ (b ow or : Bool), (b = true ∨ p < c.m_nStartPosition ∨
        c.m_nStartPosition + c.m_nWritePosition < p) →
      (c.Reset p b ow or).1 = true ∧ (c.Reset p b ow or).2.m_nStartPosition = p ∧
      ((ow = true ∧ or = true) → (c.Reset p b ow or).2.m_nWritePosition = 0 ∧
        (c.Reset p b ow or).2.m_nReadPosition = 0) := by
    intro b ow or h
    have hc : (!b && c.IsCachedPosition p) = false := by
      rw [Bool.eq_false_iff]
      simp only [IsCachedPosition, ne_eq, Bool.and_eq_true, Bool.not_eq_true', decide_eq_true_eq,
        not_and]
      intro hb
      rcases h with h | h | h
      · rw [h] at hb; exact absurd hb (by decide)
      · omega
      · omega
    simp only [Reset, hc, Bool.false_eq_true, if_false]
    refine ⟨trivial, ?_, ?_⟩
    · simp only [physSeekRead, physSeekWrite, seekTarget, SEEK_SET, if_true]
      cases ow <;> cases or <;> simp
    · rintro ⟨rfl, rfl⟩
      simp [physSeekRead, physSeekWrite, seekTarget, SEEK_SET]
  have key2 : ∀ (b ow or : Bool), ¬ (b = true ∨ p < c.m_nStartPosition ∨
        c.m_nStartPosition + c.m_nWritePosition < p) → (c.Reset p b ow or).1 = false := by
    intro b ow or h
    have hc : (!b && c.IsCachedPosition p) = true := by
      simp only [IsCachedPosition, Bool.and_eq_true, Bool.not_eq_true', decide_eq_true_eq]
      refine ⟨?_, by omega, by omega⟩
      cases b
      · rfl
      · exact absurd (Or.inl rfl) h
    simp only [Reset, hc, if_true]
  have hiff : ∀ (b ow or : Bool), ((c.Reset p b ow or).1 = true ↔
      (b = true ∨ p < c.m_nStartPosition ∨ c.m_nStartPosition + c.m_nWritePosition < p)) := by
    intro b ow or
    constructor
    · intro hr
      by_contra hn
      rw [key2 b ow or hn] at hr
      exact absurd hr (by decide)
    · intro h
      exact (key b ow or h).1
  refine ⟨hiff _ _ _, ?_, ?_, (key true okW okR (Or.inl rfl)).1, by decide, by decide, by decide,
    by decide⟩
  · intro hr
    exact (key clearAnyway okW okR ((hiff clearAnyway okW okR).mp hr)).2.1
  · intro hr
    have := key clearAnyway true true ((hiff clearAnyway true true).mp hr)
    exact ⟨this.2.1, this.2.2 ⟨rfl, rfl⟩⟩

/-- C15: `SeekWrite` from the start with `position - start_position < 0` returns
the error code and leaves the cache as it was. In every other case the write
handle is asked for `position - start_position` (from the start) or for
`position` itself (any other origin), the write cursor takes the offset the
handle returns, and the call returns `position` when that offset equals what was
asked for and the error code when it differs. -/
theorem SeekWrite_postcondition (c : CSimpleFileCache) (iFilePosition whence : Int) (ok : Bool) :
    (whence = SEEK_SET → iFilePosition - c.m_nStartPosition < 0 →
      c.SeekWrite iFilePosition whence ok = (CACHE_RC_ERROR, c)) ∧
    (whence = SEEK_SET → ¬ iFilePosition - c.m_nStartPosition < 0 →
      (c.SeekWrite iFilePosition whence ok).2.m_nWritePosition
        = (c.physSeekWrite (iFilePosition - c.m_nStartPosition) whence ok).1 ∧
      ((c.physSeekWrite (iFilePosition - c.m_nStartPosition) whence ok).1
          = iFilePosition - c.m_nStartPosition →
        (c.SeekWrite iFilePosition whence ok).1 = iFilePosition ∧
        (c.SeekWrite iFilePosition whence ok).2.m_nWritePosition
          = iFilePosition - c.m_nStartPosition) ∧
      ((c.physSeekWrite (iFilePosition - c.m_nStartPosition) whence ok).1
          ≠ iFilePosition - c.m_nStartPosition →
        (c.SeekWrite iFilePosition whence ok).1 = CACHE_RC_ERROR)) ∧
    (whence ≠ SEEK_SET →
      (c.SeekWrite iFilePosition whence ok).2.m_nWritePosition
        = (c.physSeekWrite iFilePosition whence ok).1 ∧
      ((c.physSeekWrite iFilePosition whence ok).1 = iFilePosition →
        (c.SeekWrite iFilePosition whence ok).1 = iFilePosition ∧
        (c.SeekWrite iFilePosition whence ok).2.m_nWritePosition = iFilePosition) ∧
      ((c.physSeekWrite iFilePosition whence ok).1 ≠ iFilePosition →
        (c.SeekWrite iFilePosition whence ok).1 = CACHE_RC_ERROR)) := by
  refine ⟨?_, ?_, ?_⟩
  · intro hw hneg
    simp [SeekWrite, hw, hneg]
  · intro hw hneg
    subst hw
    refine ⟨?_, ?_, ?_⟩
    · by_cases hk : (c.physSeekWrite (iFilePosition - c.m_nStartPosition) SEEK_SET ok).1
          = iFilePosition - c.m_nStartPosition <;> simp [SeekWrite, hneg, hk]
    · intro hk
      simp [SeekWrite, hneg, hk]
    · intro hk
      simp [SeekWrite, hneg, hk]
  · intro hw
    refine ⟨?_, ?_, ?_⟩
    · by_cases hk : (c.physSeekWrite iFilePosition whence ok).1 = iFilePosition <;>
        simp [SeekWrite, hw, hk]
    · intro hk
      simp [SeekWrite, hw, hk]
    · intro hk
      simp [SeekWrite, hw, hk]

end CSimpleFileCache
end XFILE

/-! ## The Rotating Cache -/

namespace XFILE
namespace CSimpleFileCache

/-- `Reset(p, false)` for a covered position, in full: the cache is kept and the
read cursor takes what the seek of the read handle returns. -/
theorem Reset_covered_eq (c : CSimpleFileCache) (p : Int) (okW okR : Bool)
    (h : c.IsCachedPosition p = true) :
    c.Reset p false okW okR
      = (false, { (c.physSeekRead (p - c.m_nStartPosition) SEEK_SET okR).2 with
          m_nReadPosition := (c.physSeekRead (p - c.m_nStartPosition) SEEK_SET okR).1 }) := by
  simp [Reset, h]

/-- `Reset(p, c)` with `c` set or `p` not covered, with both seeks performed: the
window restarts at `p` with both cursors at 0. -/
theorem Reset_clear_eq (c : CSimpleFileCache) (p : Int) (clearAnyway : Bool)
    (h : (!clearAnyway && c.IsCachedPosition p) = false) :
    c.Reset p clearAnyway true true
      = (true, { c with
          m_nStartPosition := p
          m_nWritePosition := 0
          m_nReadPosition := 0
          m_cacheFileWrite := 0
          m_cacheFileRead := 0 }) := by
  simp [Reset, h, physSeekRead, physSeekWrite, seekTarget, SEEK_SET]

/-- `Reset(p, false)` for a position that is not covered, with both seeks
performed: the window restarts at `p` with both cursors at 0. -/
theorem Reset_uncovered_eq (c : CSimpleFileCache) (p : Int) (h : c.IsCachedPosition p = false) :
    c.Reset p false true true
      = (true, { c with
          m_nStartPosition := p
          m_nWritePosition := 0
          m_nReadPosition := 0
          m_cacheFileWrite := 0
          m_cacheFileRead := 0 }) :=
  Reset_clear_eq c p false (by simp [h])

/-- `Reset(p, c)` of a freshly opened cache, with both seeks performed, leaves
the start position at `p` and both cursors at 0, for every `p` and `c`. -/
theorem freshCache_Reset (p : Int) (clearAnyway : Bool) :
    (freshCache.Reset p clearAnyway true true).2.m_nStartPosition = p ∧
    (freshCache.Reset p clearAnyway true true).2.m_nWritePosition = 0 ∧
    (freshCache.Reset p clearAnyway true true).2.m_nReadPosition = 0 := by
  by_cases hc : (!clearAnyway && freshCache.IsCachedPosition p) = false
  · rw [Reset_clear_eq freshCache p clearAnyway hc]
    exact ⟨rfl, rfl, rfl⟩
  · have hc' : (!clearAnyway && freshCache.IsCachedPosition p) = true := by simpa using hc
    simp only [Bool.and_eq_true, Bool.not_eq_true', IsCachedPosition, decide_eq_true_eq] at hc'
    obtain ⟨hb, h1, h2⟩ := hc'
    have hp : p = 0 := by
      have e1 : freshCache.m_nStartPosition = 0 := rfl
      have e2 : freshCache.m_nWritePosition = 0 := rfl
      rw [e1] at h1 h2
      rw [e2] at h2
      omega
    subst hp
    subst hb
    decide

/-- After `Reset(p, false)` with the seeks performed, on a cache whose write
cursor is not negative, the window covers `p`; it starts at `p` when the cache
was empty, and otherwise at `p` or where it started before. -/
theorem Reset_window (c : CSimpleFileCache) (p : Int) (hw : 0 ≤ c.m_nWritePosition) :
    (c.Reset p false true true).2.m_nStartPosition ≤ p ∧
    p ≤ (c.Reset p false true true).2.m_nStartPosition
      + (c.Reset p false true true).2.m_nWritePosition ∧
    0 ≤ (c.Reset p false true true).2.m_nWritePosition ∧
    ((c.Reset p false true true).2.m_nStartPosition = p ∨
      ((c.Reset p false true true).2.m_nStartPosition = c.m_nStartPosition ∧
        (c.Reset p false true true).2.m_nWritePosition = c.m_nWritePosition ∧
        0 < c.m_nWritePosition)) := by
  by_cases h : c.IsCachedPosition p = true
  · rw [Reset_covered_eq c p true true h]
    simp only [IsCachedPosition, Bool.and_eq_true, decide_eq_true_eq] at h
    have hn : ¬ p - c.m_nStartPosition < 0 := by omega
    simp only [physSeekRead, seekTarget, SEEK_SET, if_true, hn, or_false, Bool.true_eq_false,
      if_false]
    refine ⟨by omega, by omega, hw, ?_⟩
    by_cases h0 : c.m_nWritePosition = 0
    · left; omega
    · right; exact ⟨trivial, trivial, by omega⟩
  · have h' : c.IsCachedPosition p = false := by simpa using h
    rw [Reset_uncovered_eq c p h']
    exact ⟨le_refl _, by simp, le_refl _, Or.inl rfl⟩

/-- `WriteToCache` keeps the start position and advances the write cursor by at
most the size asked for, whatever the storage layer does. -/
theorem WriteToCache_window (c : CSimpleFileCache) (pBuffer : Buffer) (iSize : Nat)
    (script : List IoOutcome) :
    (c.WriteToCache pBuffer iSize script).cache.m_nStartPosition = c.m_nStartPosition ∧
    c.m_nWritePosition ≤ (c.WriteToCache pBuffer iSize script).cache.m_nWritePosition ∧
    (c.WriteToCache pBuffer iSize script).cache.m_nWritePosition ≤ c.m_nWritePosition + iSize := by
  obtain ⟨new, -, e2, -, -, -, -, e7⟩ := writeLoop_spec pBuffer iSize c iSize 0 script [] (le_refl _)
  refine ⟨e2, ?_⟩
  rcases e7 with ⟨-, -, -, a4, -⟩ | ⟨good, bad, -, a2, -, a4, -, a6, -⟩
  · show c.m_nWritePosition ≤ (writeLoop pBuffer iSize c iSize 0 script []).cache.m_nWritePosition ∧
      (writeLoop pBuffer iSize c iSize 0 script []).cache.m_nWritePosition ≤ c.m_nWritePosition + iSize
    rw [a4]; omega
  · show c.m_nWritePosition ≤ (writeLoop pBuffer iSize c iSize 0 script []).cache.m_nWritePosition ∧
      (writeLoop pBuffer iSize c iSize 0 script []).cache.m_nWritePosition ≤ c.m_nWritePosition + iSize
    rw [a6]
    have := sum_nonneg_of_pos good a2
    omega

/-- When no physical write fails, `WriteToCache` advances the write cursor by
exactly the size asked for: the data is written. -/
theorem WriteToCache_written (c : CSimpleFileCache) (pBuffer : Buffer) (iSize : Nat)
    (script : List IoOutcome)
    (hok : ∀ v ∈ (c.WriteToCache pBuffer iSize script).calls, 0 < v) :
    (c.WriteToCache pBuffer iSize script).cache.m_nWritePosition = c.m_nWritePosition + iSize := by
  obtain ⟨new, e1, -, -, -, -, -, e7⟩ := writeLoop_spec pBuffer iSize c iSize 0 script [] (le_refl _)
  rcases e7 with ⟨-, -, -, a4, -⟩ | ⟨good, bad, a1, -, a3, -⟩
  · exact a4
  · exfalso
    have hb : 0 < bad := hok bad (by
      show bad ∈ (writeLoop pBuffer iSize c iSize 0 script []).calls
      rw [e1, a1]; simp)
    omega

end CSimpleFileCache

namespace CDoubleCache

open CSimpleFileCache

/-- C16: when the position is not covered by the active cache but is covered by
the previous one, `Seek` returns the error code, waits for nothing and leaves
the rotating cache, both caches and their roles, as it was; in every other case
it returns what `Seek` of the active cache returns, the active cache becomes
what that call leaves, and the previous cache is unchanged. -/
theorem Seek_sentinel (d : CDoubleCache) (p : Int) (env : List (List ProducerOp)) (ok : Bool) :
    (d.m_pCache.IsCachedPosition p = false →
      (∃ o, d.m_pCacheOld = some o ∧ o.IsCachedPosition p = true) →
      d.Seek p env ok = ⟨CACHE_RC_ERROR, d, 0⟩) ∧
    (¬ (d.m_pCache.IsCachedPosition p = false ∧
        ∃ o, d.m_pCacheOld = some o ∧ o.IsCachedPosition p = true) →
      (d.Seek p env ok).ret = (d.m_pCache.Seek p env ok).ret ∧
      (d.Seek p env ok).waits = (d.m_pCache.Seek p env ok).waits ∧
      (d.Seek p env ok).cache.m_pCache = (d.m_pCache.Seek p env ok).cache ∧
      (d.Seek p env ok).cache.m_pCacheOld = d.m_pCacheOld) := by
  constructor
  · rintro h1 ⟨o, h2, h3⟩
    simp [Seek, h1, h2, h3]
  · intro h
    have hc : ¬ (!d.m_pCache.IsCachedPosition p &&
        (match d.m_pCacheOld with
          | some old => old.IsCachedPosition p
          | none => false)) = true := by
      intro hh
      simp only [Bool.and_eq_true, Bool.not_eq_true'] at hh
      apply h
      refine ⟨hh.1, ?_⟩
      cases hold : d.m_pCacheOld with
      | none => rw [hold] at hh; exact absurd hh.2 Bool.false_ne_true
      | some o => rw [hold] at hh; exact ⟨o, rfl, hh.2⟩
    have hunf : d.Seek p env ok = ⟨(d.m_pCache.Seek p env ok).ret,
        { d with m_pCache := (d.m_pCache.Seek p env ok).cache },
        (d.m_pCache.Seek p env ok).waits⟩ := by
      unfold Seek
      rw [if_neg hc]
    rw [hunf]
    exact ⟨rfl, rfl, rfl, rfl⟩

/-- The stay-put test of `Reset(p, false)` in the words of the specification -/
theorem staysPut_iff (d : CDoubleCache) (p : Int) :
    d.staysPut p false = true ↔
      (d.m_pCache.IsCachedPosition p = true ∧
        (d.m_pCacheOld = none ∨
          ∃ o, d.m_pCacheOld = some o ∧
            (o.IsCachedPosition p = false ∨ d.m_pCache.CachedDataEndPos ≥ o.CachedDataEndPos))) := by
  unfold staysPut
  cases hold : d.m_pCacheOld with
  | none => simp
  | some o => simp

/-- C17: when the position is covered by the active cache and there is no
previous cache, or the previous cache does not cover it, or the active cache's
data ends at least as far as the previous cache's, `Reset(p, false)` is
`Reset(p, false)` of the active cache in place: it returns "not cleared", the
active cache keeps its start position, write cursor and file, its read cursor
is at `p - start_position` when the storage layer performs the seek, the
previous cache is unchanged, and the outcome of an `Open()` plays no part. -/
theorem Reset_stays_put (d : CDoubleCache) (p : Int) (openOk okW okR : Bool)
    (hcov : d.m_pCache.IsCachedPosition p = true)
    (hold : d.m_pCacheOld = none ∨
      ∃ o, d.m_pCacheOld = some o ∧
        (o.IsCachedPosition p = false ∨ d.m_pCache.CachedDataEndPos ≥ o.CachedDataEndPos)) :
    (d.Reset p false openOk okW okR).1 = false ∧
    (d.Reset p false openOk okW okR).2.m_pCache = (d.m_pCache.Reset p false okW okR).2 ∧
    (d.Reset p false openOk okW okR).2.m_pCache.m_nStartPosition = d.m_pCache.m_nStartPosition ∧
    (d.Reset p false openOk okW okR).2.m_pCache.m_nWritePosition = d.m_pCache.m_nWritePosition ∧
    (d.Reset p false openOk okW okR).2.m_pCache.fileData = d.m_pCache.fileData ∧
    (d.Reset p false openOk okW true).2.m_pCache.m_nReadPosition
      = p - d.m_pCache.m_nStartPosition ∧
    (d.Reset p false openOk okW okR).2.m_pCacheOld = d.m_pCacheOld ∧
    d.Reset p false true okW okR = d.Reset p false false okW okR := by
  have hs : d.staysPut p false = true := (staysPut_iff d p).mpr ⟨hcov, hold⟩
  have key : ∀ oo orr : Bool, d.Reset p false oo okW orr
      = ((d.m_pCache.Reset p false okW orr).1,
          { d with m_pCache := (d.m_pCache.Reset p false okW orr).2 }) := by
    intro oo orr
    simp only [Reset, hs, if_true]
  rw [key openOk okR, key openOk true, key true okR, key false okR,
    Reset_covered_eq _ p okW okR hcov, Reset_covered_eq _ p okW true hcov]
  simp only [CSimpleFileCache.IsCachedPosition, Bool.and_eq_true, decide_eq_true_eq] at hcov
  have hn : ¬ p - d.m_pCache.m_nStartPosition < 0 := by omega
  simp only [physSeekRead, seekTarget, SEEK_SET, if_true, hn, or_false]
  cases okR <;> simp_all

/-- Witness for C17: a rotating cache with three bytes cached from position 0
on and no previous cache is reset to position 2. -/
theorem Reset_stays_put_witness :
    ((freshDoubleCache.WriteToCache (bufferOf [1, 2, 3]) 3 []).2.Reset 2 false true true true).1
      = false ∧
    ((freshDoubleCache.WriteToCache (bufferOf [1, 2, 3]) 3 []).2.Reset 2 false true true
      true).2.m_pCache.m_nReadPosition = 2 - 0 :=
  ⟨(Reset_stays_put (freshDoubleCache.WriteToCache (bufferOf [1, 2, 3]) 3 []).2 2 true true true
      (by decide) (Or.inl rfl)).1,
    (Reset_stays_put (freshDoubleCache.WriteToCache (bufferOf [1, 2, 3]) 3 []).2 2 true true true
      (by decide) (Or.inl rfl)).2.2.2.2.2.1⟩

/-- C18: on a rotating cache with no previous cache, for `Reset(p, c)` with `c`
true or `p` not covered by the active cache: when `Open()` of the new cache
succeeds, the call returns what `Reset(p, c)` of the newly opened cache
returns, that cache becomes the active one, with start position `p` and both
cursors at 0 when the storage layer performs the seeks, and the former active
cache, unchanged, becomes the previous one; when `Open()` fails, there is still
no previous cache and the call is `Reset(p, c)` of the active cache in place. -/
theorem Reset_first_rotation (d : CDoubleCache) (p : Int) (clearAnyway okW okR : Bool)
    (hnone : d.m_pCacheOld = none)
    (h : clearAnyway = true ∨ d.m_pCache.IsCachedPosition p = false) :
    (d.Reset p clearAnyway true okW okR).1 = (freshCache.Reset p clearAnyway okW okR).1 ∧
    (d.Reset p clearAnyway true okW okR).2.m_pCache = (freshCache.Reset p clearAnyway okW okR).2 ∧
    (d.Reset p clearAnyway true okW okR).2.m_pCacheOld = some d.m_pCache ∧
    (d.Reset p clearAnyway true true true).2.m_pCache.m_nStartPosition = p ∧
    (d.Reset p clearAnyway true true true).2.m_pCache.m_nWritePosition = 0 ∧
    (d.Reset p clearAnyway true true true).2.m_pCache.m_nReadPosition = 0 ∧
    (d.Reset p clearAnyway false okW okR).1 = (d.m_pCache.Reset p clearAnyway okW okR).1 ∧
    (d.Reset p clearAnyway false okW okR).2.m_pCache = (d.m_pCache.Reset p clearAnyway okW okR).2 ∧
    (d.Reset p clearAnyway false okW okR).2.m_pCacheOld = none := by
  have hs : d.staysPut p clearAnyway = false := by
    unfold staysPut
    rcases h with h | h
    · rw [h]; rfl
    · rw [h]; simp
  have key1 : ∀ ow orr : Bool, d.Reset p clearAnyway true ow orr
      = ((freshCache.Reset p clearAnyway ow orr).1,
          ⟨(freshCache.Reset p clearAnyway ow orr).2, some d.m_pCache⟩) := by
    intro ow orr
    simp [Reset, hs, hnone]
  have key2 : d.Reset p clearAnyway false okW okR
      = ((d.m_pCache.Reset p clearAnyway okW okR).1,
          { d with m_pCache := (d.m_pCache.Reset p clearAnyway okW okR).2 }) := by
    simp [Reset, hs, hnone]
  rw [key1 okW okR, key1 true true, key2]
  exact ⟨rfl, rfl, rfl, (freshCache_Reset p clearAnyway).1, (freshCache_Reset p clearAnyway).2.1,
    (freshCache_Reset p clearAnyway).2.2, rfl, rfl, hnone⟩

/-- Witness for C18: a fresh rotating cache, whose active cache covers only
position 0, is reset to position 7. -/
theorem Reset_first_rotation_witness :
    (freshDoubleCache.Reset 7 false true true true).2.m_pCache.m_nStartPosition = 7 ∧
    (freshDoubleCache.Reset 7 false true true true).2.m_pCacheOld = some freshDoubleCache.m_pCache ∧
    (freshDoubleCache.Reset 7 false false true true).2.m_pCacheOld = none :=
  ⟨(Reset_first_rotation freshDoubleCache 7 false true true rfl (Or.inr (by decide))).2.2.2.1,
    (Reset_first_rotation freshDoubleCache 7 false true true rfl (Or.inr (by decide))).2.2.1,
    (Reset_first_rotation freshDoubleCache 7 false true true rfl (Or.inr (by decide))).2.2.2.2.2.2.2.2⟩

/-- C19: on a rotating cache that has a previous cache, a `Reset(p, c)` that does
not stay put returns what `Reset(p, c)` of the previous cache returns; the cache
that call leaves becomes the active one and the former active cache, unchanged,
becomes the previous one, whatever an `Open()` would return. -/
theorem Reset_reuse_and_swap (d : CDoubleCache) (o : CSimpleFileCache) (p : Int)
    (clearAnyway openOk okW okR : Bool)
    (hold : d.m_pCacheOld = some o) (hns : d.staysPut p clearAnyway = false) :
    d.Reset p clearAnyway openOk okW okR
      = ((o.Reset p clearAnyway okW okR).1,
          { m_pCache := (o.Reset p clearAnyway okW okR).2, m_pCacheOld := some d.m_pCache }) ∧
    (d.Reset p clearAnyway openOk okW okR).2.m_pCacheOld = some d.m_pCache := by
  have key : d.Reset p clearAnyway openOk okW okR
      = ((o.Reset p clearAnyway okW okR).1,
          { m_pCache := (o.Reset p clearAnyway okW okR).2, m_pCacheOld := some d.m_pCache }) := by
    simp [Reset, hns, hold]
  rw [key]
  exact ⟨rfl, rfl⟩

/-- Witness for C19: after a first rotation to position 7 the rotating cache is
reset to position 20, which neither cache covers. -/
theorem Reset_reuse_and_swap_witness :
    ((freshDoubleCache.Reset 7 false true true true).2.Reset 20 false true true true).2.m_pCacheOld
      = some (freshDoubleCache.Reset 7 false true true true).2.m_pCache :=
  (Reset_reuse_and_swap (freshDoubleCache.Reset 7 false true true true).2 freshCache 20 false true
    true true rfl (by decide)).2

end CDoubleCache
end XFILE

namespace XFILE
namespace CDoubleCache

open CSimpleFileCache

/-- A cache that is empty or starts at `lo` or later, reset to a position `pos`
at `lo` or later and then written to, no physical write failing, has a window
that starts between `lo` and `pos`, covers the positions from `pos` to `pos`
plus the size written, and ends at most at the end of its data after the reset
plus the size written. -/
theorem promote_window (c : CSimpleFileCache) (pos lo : Int) (pBuffer : Buffer) (iSize : Nat)
    (script : List IoOutcome)
    (hw : 0 ≤ c.m_nWritePosition) (hs : c.m_nWritePosition = 0 ∨ lo ≤ c.m_nStartPosition)
    (hlo : lo ≤ pos)
    (hok : ∀ v ∈ (((c.Reset pos false true true).2).WriteToCache pBuffer iSize script).calls,
      0 < v) :
    lo ≤ (((c.Reset pos false true true).2).WriteToCache pBuffer iSize script).cache.m_nStartPosition ∧
    (((c.Reset pos false true true).2).WriteToCache pBuffer iSize script).cache.m_nStartPosition
      ≤ pos ∧
    pos ≤ (((c.Reset pos false true true).2).WriteToCache pBuffer iSize script).cache.m_nStartPosition
      + (((c.Reset pos false true true).2).WriteToCache pBuffer iSize script).cache.m_nWritePosition ∧
    (((c.Reset pos false true true).2).WriteToCache pBuffer iSize script).cache.m_nStartPosition
      + (((c.Reset pos false true true).2).WriteToCache pBuffer iSize script).cache.m_nWritePosition
      ≤ (c.Reset pos false true true).2.CachedDataEndPos + iSize ∧
    0 ≤ (((c.Reset pos false true true).2).WriteToCache pBuffer iSize script).cache.m_nWritePosition ∧
    pos + iSize
      ≤ (((c.Reset pos false true true).2).WriteToCache pBuffer iSize script).cache.m_nStartPosition
        + (((c.Reset pos false true true).2).WriteToCache pBuffer iSize script).cache.m_nWritePosition := by
  obtain ⟨r1, r2, r3, r4⟩ := Reset_window c pos hw
  obtain ⟨w1, w2, w3⟩ := WriteToCache_window (c.Reset pos false true true).2 pBuffer iSize script
  have w4 := WriteToCache_written (c.Reset pos false true true).2 pBuffer iSize script hok
  have he : (c.Reset pos false true true).2.CachedDataEndPos
      = (c.Reset pos false true true).2.m_nStartPosition
        + (c.Reset pos false true true).2.m_nWritePosition := rfl
  rw [he, w1]
  refine ⟨?_, r1, by omega, by omega, by omega, by omega⟩
  rcases r4 with r4 | ⟨r4, _, r5⟩
  · omega
  · rcases hs with hs | hs
    · omega
    · omega

/-- One round of the alternation. Before it the active cache lies inside the
window `[loX, hiX]`, or is empty with no previous cache beside it, and a
previous cache is empty or starts at `loY` or later. The round resets to a
position of the other window `[loY, hiY]`, no physical write of it fails and
the data it writes ends inside that window. After it the active cache lies
inside `[loY, hiY]` and covers the positions from the position of the reset to
that position plus the size written, and a previous cache is the former active
cache, which is there whenever the former active cache lay inside
`[loX, hiX]`. -/
theorem round_step (d : CDoubleCache) (r : Round) (loX hiX loY hiY : Int)
    (hdis : hiX < loY ∨ hiY < loX)
    (hA0 : 0 ≤ d.m_pCache.m_nWritePosition)
    (hA : (loX ≤ d.m_pCache.m_nStartPosition ∧
        d.m_pCache.m_nStartPosition + d.m_pCache.m_nWritePosition ≤ hiX) ∨
      (d.m_pCache.m_nWritePosition = 0 ∧ d.m_pCacheOld = none))
    (hO : ∀ o, d.m_pCacheOld = some o →
      0 ≤ o.m_nWritePosition ∧ (o.m_nWritePosition = 0 ∨ loY ≤ o.m_nStartPosition))
    (hlo : loY ≤ r.pos)
    (hhi : (d.Reset r.pos false true true true).2.CachedDataEndPos + r.iSize ≤ hiY)
    (hwr : ∀ v ∈ ((d.Reset r.pos false true true true).2.WriteToCache r.pBuffer r.iSize
      r.script).1.calls, 0 < v) :
    loY ≤ (d.round r).m_pCache.m_nStartPosition ∧
    (d.round r).m_pCache.m_nStartPosition ≤ r.pos ∧
    r.pos ≤ (d.round r).m_pCache.m_nStartPosition + (d.round r).m_pCache.m_nWritePosition ∧
    (d.round r).m_pCache.m_nStartPosition + (d.round r).m_pCache.m_nWritePosition ≤ hiY ∧
    0 ≤ (d.round r).m_pCache.m_nWritePosition ∧
    r.pos + r.iSize
      ≤ (d.round r).m_pCache.m_nStartPosition + (d.round r).m_pCache.m_nWritePosition ∧
    (∀ o, (d.round r).m_pCacheOld = some o → o = d.m_pCache) ∧
    ((loX ≤ d.m_pCache.m_nStartPosition ∧
        d.m_pCache.m_nStartPosition + d.m_pCache.m_nWritePosition ≤ hiX) →
      (d.round r).m_pCacheOld = some d.m_pCache) := by
  have hfresh0 : (0 : Int) ≤ freshCache.m_nWritePosition := by decide
  have hfresh1 : freshCache.m_nWritePosition = 0 ∨ loY ≤ freshCache.m_nStartPosition :=
    Or.inl rfl
  by_cases hs : d.staysPut r.pos false = true
  · have hR : d.Reset r.pos false true true true
        = ((d.m_pCache.Reset r.pos false true true).1,
            { d with m_pCache := (d.m_pCache.Reset r.pos false true true).2 }) := by
      simp only [Reset, hs, if_true]
    have hcov := ((staysPut_iff d r.pos).mp hs).1
    simp only [CSimpleFileCache.IsCachedPosition, Bool.and_eq_true, decide_eq_true_eq] at hcov
    rw [hR] at hhi hwr
    have hwr1 : ∀ v ∈ ((d.m_pCache.Reset r.pos false true true).2.WriteToCache r.pBuffer r.iSize
        r.script).calls, 0 < v := hwr
    have hrw := Reset_window d.m_pCache r.pos hA0
    have hpos : r.pos ≤ hiY := by
      have he : (d.m_pCache.Reset r.pos false true true).2.CachedDataEndPos
          = (d.m_pCache.Reset r.pos false true true).2.m_nStartPosition
            + (d.m_pCache.Reset r.pos false true true).2.m_nWritePosition := rfl
      have hh : (d.m_pCache.Reset r.pos false true true).2.CachedDataEndPos + r.iSize ≤ hiY := hhi
      omega
    have hempty : d.m_pCache.m_nWritePosition = 0 ∧ d.m_pCacheOld = none := by
      rcases hA with hA | hA
      · exfalso; omega
      · exact hA
    have hst : d.m_pCache.m_nStartPosition = r.pos := by omega
    have hp := promote_window d.m_pCache r.pos loY r.pBuffer r.iSize r.script hA0
      (Or.inl hempty.1) hlo hwr1
    have hround : d.round r = { d with m_pCache :=
        ((d.m_pCache.Reset r.pos false true true).2.WriteToCache r.pBuffer r.iSize r.script).cache } := by
      simp only [round, hR, WriteToCache]
    rw [hround]
    obtain ⟨p1, p2, p3, p4, p5, p6⟩ := hp
    have hh : (d.m_pCache.Reset r.pos false true true).2.CachedDataEndPos + r.iSize ≤ hiY := hhi
    refine ⟨p1, p2, p3, le_trans p4 hh, p5, p6, ?_, ?_⟩
    · intro o ho
      have : d.m_pCacheOld = some o := ho
      rw [hempty.2] at this
      exact absurd this (by simp)
    · intro hX
      exfalso; omega
  · have hs' : d.staysPut r.pos false = false := by simpa using hs
    cases hold : d.m_pCacheOld with
    | none =>
      have hR : d.Reset r.pos false true true true
          = ((freshCache.Reset r.pos false true true).1,
              ⟨(freshCache.Reset r.pos false true true).2, some d.m_pCache⟩) := by
        simp [Reset, hs', hold]
      rw [hR] at hhi hwr
      have hwr1 : ∀ v ∈ ((freshCache.Reset r.pos false true true).2.WriteToCache r.pBuffer r.iSize
          r.script).calls, 0 < v := hwr
      have hp := promote_window freshCache r.pos loY r.pBuffer r.iSize r.script hfresh0 hfresh1 hlo
        hwr1
      have hround : d.round r = ⟨((freshCache.Reset r.pos false true true).2.WriteToCache
          r.pBuffer r.iSize r.script).cache, some d.m_pCache⟩ := by
        simp only [round, hR, WriteToCache]
      rw [hround]
      obtain ⟨p1, p2, p3, p4, p5, p6⟩ := hp
      have hh : (freshCache.Reset r.pos false true true).2.CachedDataEndPos + r.iSize ≤ hiY := hhi
      refine ⟨p1, p2, p3, le_trans p4 hh, p5, p6, ?_, fun _ => rfl⟩
      intro o ho
      have : some d.m_pCache = some o := ho
      exact (Option.some.inj this).symm
    | some o0 =>
      have hR : d.Reset r.pos false true true true
          = ((o0.Reset r.pos false true true).1,
              ⟨(o0.Reset r.pos false true true).2, some d.m_pCache⟩) := by
        simp [Reset, hs', hold]
      rw [hR] at hhi hwr
      have hwr1 : ∀ v ∈ ((o0.Reset r.pos false true true).2.WriteToCache r.pBuffer r.iSize
          r.script).calls, 0 < v := hwr
      obtain ⟨ho1, ho2⟩ := hO o0 hold
      have hp := promote_window o0 r.pos loY r.pBuffer r.iSize r.script ho1 ho2 hlo hwr1
      have hround : d.round r = ⟨((o0.Reset r.pos false true true).2.WriteToCache
          r.pBuffer r.iSize r.script).cache, some d.m_pCache⟩ := by
        simp only [round, hR, WriteToCache]
      rw [hround]
      obtain ⟨p1, p2, p3, p4, p5, p6⟩ := hp
      have hh : (o0.Reset r.pos false true true).2.CachedDataEndPos + r.iSize ≤ hiY := hhi
      refine ⟨p1, p2, p3, le_trans p4 hh, p5, p6, ?_, fun _ => rfl⟩
      intro o ho
      have : some d.m_pCache = some o := ho
      exact (Option.some.inj this).symm

/-- After rounds that alternate between two disjoint windows, of which `r1` and
`r2` are the last two: there is a previous cache; the positions from `r1.pos`
to `r1.pos` plus the size written in that round, and on to the end of the
previous cache's data, are cached; so are the positions from `r2.pos` to
`r2.pos` plus the size written in that round, and on to the end of the active
cache's data; and no position outside both windows is cached. -/
theorem rounds_alternating (init : List Round) :
    ∀ (d : CDoubleCache) (loX hiX loY hiY : Int) (r1 r2 : Round),
      (hiX < loY ∨ hiY < loX) →
      0 ≤ d.m_pCache.m_nWritePosition →
      ((loX ≤ d.m_pCache.m_nStartPosition ∧
          d.m_pCache.m_nStartPosition + d.m_pCache.m_nWritePosition ≤ hiX) ∨
        (d.m_pCache.m_nWritePosition = 0 ∧ d.m_pCacheOld = none)) →
      (∀ o, d.m_pCacheOld = some o →
        0 ≤ o.m_nWritePosition ∧ (o.m_nWritePosition = 0 ∨ loY ≤ o.m_nStartPosition)) →
      Alternates loY hiY loX hiX d (init ++ [r1, r2]) →
      (d.rounds (init ++ [r1, r2])).m_pCacheOld.isSome = true ∧
      (∀ q : Int, r2.pos ≤ q → q ≤ r2.pos + r2.iSize →
        (d.rounds (init ++ [r1, r2])).IsCachedPosition q = true) ∧
      (∀ q : Int, r1.pos ≤ q → q ≤ r1.pos + r1.iSize →
        (d.rounds (init ++ [r1, r2])).IsCachedPosition q = true) ∧
      r2.pos + r2.iSize ≤ (d.rounds (init ++ [r1, r2])).CachedDataEndPos ∧
      (∀ o, (d.rounds (init ++ [r1, r2])).m_pCacheOld = some o →
        r1.pos + r1.iSize ≤ o.CachedDataEndPos) ∧
      (∀ q : Int, r2.pos ≤ q → q ≤ (d.rounds (init ++ [r1, r2])).CachedDataEndPos →
        (d.rounds (init ++ [r1, r2])).IsCachedPosition q = true) ∧
      (∀ o, (d.rounds (init ++ [r1, r2])).m_pCacheOld = some o →
        ∀ q : Int, r1.pos ≤ q → q ≤ o.CachedDataEndPos →
          (d.rounds (init ++ [r1, r2])).IsCachedPosition q = true) ∧
      (∀ q : Int, (q < loX ∨ hiX < q) → (q < loY ∨ hiY < q) →
        (d.rounds (init ++ [r1, r2])).IsCachedPosition q = false) := by
  induction init with
  | nil =>
    intro d loX hiX loY hiY r1 r2 hdis hA0 hA hO halt
    obtain ⟨hlo1, hhi1, hwr1, hlo2, hhi2, hwr2, _⟩ := halt
    obtain ⟨a1, a2, a3, a4, a5, a6, a7, a8⟩ :=
      round_step d r1 loX hiX loY hiY hdis hA0 hA hO hlo1 hhi1 hwr1
    have hO1 : ∀ o, (d.round r1).m_pCacheOld = some o →
        0 ≤ o.m_nWritePosition ∧ (o.m_nWritePosition = 0 ∨ loX ≤ o.m_nStartPosition) := by
      intro o ho
      rw [a7 o ho]
      refine ⟨hA0, ?_⟩
      rcases hA with hA | hA
      · exact Or.inr hA.1
      · exact Or.inl hA.1
    obtain ⟨b1, b2, b3, b4, b5, b6, b7, b8⟩ := round_step (d.round r1) r2 loY hiY loX hiX
      (by omega) a5 (Or.inl ⟨a1, a4⟩) hO1 hlo2 hhi2 hwr2
    have hold := b8 ⟨a1, a4⟩
    have hrounds : d.rounds ([] ++ [r1, r2]) = (d.round r1).round r2 := rfl
    rw [hrounds]
    have hcached : ∀ q : Int, ((d.round r1).round r2).IsCachedPosition q
        = (((d.round r1).round r2).m_pCache.IsCachedPosition q ||
            (d.round r1).m_pCache.IsCachedPosition q) := by
      intro q
      simp only [IsCachedPosition, hold]
    have hactive : ∀ q : Int, r2.pos ≤ q →
        q ≤ ((d.round r1).round r2).m_pCache.m_nStartPosition
          + ((d.round r1).round r2).m_pCache.m_nWritePosition →
        ((d.round r1).round r2).IsCachedPosition q = true := by
      intro q h1 h2
      rw [hcached q]
      simp only [CSimpleFileCache.IsCachedPosition, Bool.or_eq_true, Bool.and_eq_true,
        decide_eq_true_eq]
      left
      exact ⟨by omega, h2⟩
    have hprevious : ∀ q : Int, r1.pos ≤ q →
        q ≤ (d.round r1).m_pCache.m_nStartPosition + (d.round r1).m_pCache.m_nWritePosition →
        ((d.round r1).round r2).IsCachedPosition q = true := by
      intro q h1 h2
      rw [hcached q]
      simp only [CSimpleFileCache.IsCachedPosition, Bool.or_eq_true, Bool.and_eq_true,
        decide_eq_true_eq]
      right
      exact ⟨by omega, h2⟩
    refine ⟨by rw [hold]; rfl, ?_, ?_, b6, ?_, ?_, ?_, ?_⟩
    · intro q h1 h2
      exact hactive q h1 (le_trans h2 b6)
    · intro q h1 h2
      exact hprevious q h1 (le_trans h2 a6)
    · intro o ho
      have hoe : o = (d.round r1).m_pCache := by
        rw [hold] at ho
        exact (Option.some.inj ho).symm
      subst hoe
      exact a6
    · intro q h1 h2
      exact hactive q h1 h2
    · intro o ho q h1 h2
      have hoe : o = (d.round r1).m_pCache := by
        rw [hold] at ho
        exact (Option.some.inj ho).symm
      subst hoe
      exact hprevious q h1 h2
    · intro q hX hY
      rw [hcached q, Bool.eq_false_iff]
      simp only [CSimpleFileCache.IsCachedPosition, ne_eq, Bool.or_eq_true, Bool.and_eq_true,
        decide_eq_true_eq, not_or, not_and]
      constructor
      · intro h1; omega
      · intro h1; omega
  | cons r init ih =>
    intro d loX hiX loY hiY r1 r2 hdis hA0 hA hO halt
    obtain ⟨hlo, hhi, hwr, hrest⟩ := halt
    obtain ⟨a1, a2, a3, a4, a5, a6, a7, a8⟩ :=
      round_step d r loX hiX loY hiY hdis hA0 hA hO hlo hhi hwr
    have hO1 : ∀ o, (d.round r).m_pCacheOld = some o →
        0 ≤ o.m_nWritePosition ∧ (o.m_nWritePosition = 0 ∨ loX ≤ o.m_nStartPosition) := by
      intro o ho
      rw [a7 o ho]
      refine ⟨hA0, ?_⟩
      rcases hA with hA | hA
      · exact Or.inr hA.1
      · exact Or.inl hA.1
    have hrounds : d.rounds (r :: init ++ [r1, r2]) = (d.round r).rounds (init ++ [r1, r2]) := rfl
    rw [hrounds]
    obtain ⟨c0, c1, c2, c3, c4, c5, c6, c7⟩ := ih (d.round r) loY hiY loX hiX r1 r2 (by omega) a5
      (Or.inl ⟨a1, a4⟩) hO1 hrest
    exact ⟨c0, c1, c2, c3, c4, c5, c6, fun q hX hY => c7 q hY hX⟩

/-- C20: starting from a freshly opened rotating cache, after two or more rounds
of `Reset(p, false)` followed by a write, alternating between two disjoint
windows of source positions, with the data of every round written (no physical
write failing) and staying inside the window, the new caches opening and the
seeks being performed, and with `r1` and `r2` the last two rounds: there is a
previous cache; `IsCachedPosition` is true for every position from the last
reset position `r2.pos` to `r2.pos` plus the size written after that reset, and
for every position from the reset position before it, `r1.pos`, to `r1.pos` plus
the size written after that reset; the data of the active cache ends at
`r2.pos` plus the size written or later and that of the previous cache at
`r1.pos` plus the size written or later, and `IsCachedPosition` is true up to
those ends as well; and `IsCachedPosition` is false for every position outside
both windows. -/
theorem alternating_windows (lo1 hi1 lo2 hi2 : Int) (init : List Round) (r1 r2 : Round)
    (hdis : hi1 < lo2 ∨ hi2 < lo1)
    (halt : Alternates lo1 hi1 lo2 hi2 freshDoubleCache (init ++ [r1, r2])) :
    (freshDoubleCache.rounds (init ++ [r1, r2])).m_pCacheOld.isSome = true ∧
    (∀ q : Int, r2.pos ≤ q → q ≤ r2.pos + r2.iSize →
      (freshDoubleCache.rounds (init ++ [r1, r2])).IsCachedPosition q = true) ∧
    (∀ q : Int, r1.pos ≤ q → q ≤ r1.pos + r1.iSize →
      (freshDoubleCache.rounds (init ++ [r1, r2])).IsCachedPosition q = true) ∧
    r2.pos + r2.iSize ≤ (freshDoubleCache.rounds (init ++ [r1, r2])).CachedDataEndPos ∧
    (∀ o, (freshDoubleCache.rounds (init ++ [r1, r2])).m_pCacheOld = some o →
      r1.pos + r1.iSize ≤ o.CachedDataEndPos) ∧
    (∀ q : Int, r2.pos ≤ q → q ≤ (freshDoubleCache.rounds (init ++ [r1, r2])).CachedDataEndPos →
      (freshDoubleCache.rounds (init ++ [r1, r2])).IsCachedPosition q = true) ∧
    (∀ o, (freshDoubleCache.rounds (init ++ [r1, r2])).m_pCacheOld = some o →
      ∀ q : Int, r1.pos ≤ q → q ≤ o.CachedDataEndPos →
        (freshDoubleCache.rounds (init ++ [r1, r2])).IsCachedPosition q = true) ∧
    (∀ q : Int, (q < lo1 ∨ hi1 < q) → (q < lo2 ∨ hi2 < q) →
      (freshDoubleCache.rounds (init ++ [r1, r2])).IsCachedPosition q = false) := by
  obtain ⟨c0, c1, c2, c3, c4, c5, c6, c7⟩ :=
    rounds_alternating init freshDoubleCache lo2 hi2 lo1 hi1 r1 r2
      (by omega) (by decide) (Or.inr ⟨rfl, rfl⟩)
      (fun o ho => absurd ho (by simp [freshDoubleCache])) halt
  exact ⟨c0, c1, c2, c3, c4, c5, c6, fun q h1 h2 => c7 q h2 h1⟩

/-- Witness for C20: window A is the source positions 1000000 to 1000010,
window B the positions 0 to 100. Three bytes are written after a reset to
1000000; two after a reset to 5, the first physical write taking one byte; and
one after a reset to 1000002. The positions 1000002 and 1000003 of the last
round and the positions 5 and 7 of the round before it are cached, position 500
is not. -/
theorem alternating_windows_witness :
    (freshDoubleCache.rounds ([⟨1000000, bufferOf [1, 2, 3], 3, []⟩] ++
      [⟨5, bufferOf [4, 5], 2, [IoOutcome.transfer 1]⟩,
        ⟨1000002, bufferOf [6], 1, []⟩])).IsCachedPosition 1000002 = true ∧
    (freshDoubleCache.rounds ([⟨1000000, bufferOf [1, 2, 3], 3, []⟩] ++
      [⟨5, bufferOf [4, 5], 2, [IoOutcome.transfer 1]⟩,
        ⟨1000002, bufferOf [6], 1, []⟩])).IsCachedPosition 1000003 = true ∧
    (freshDoubleCache.rounds ([⟨1000000, bufferOf [1, 2, 3], 3, []⟩] ++
      [⟨5, bufferOf [4, 5], 2, [IoOutcome.transfer 1]⟩,
        ⟨1000002, bufferOf [6], 1, []⟩])).IsCachedPosition 5 = true ∧
    (freshDoubleCache.rounds ([⟨1000000, bufferOf [1, 2, 3], 3, []⟩] ++
      [⟨5, bufferOf [4, 5], 2, [IoOutcome.transfer 1]⟩,
        ⟨1000002, bufferOf [6], 1, []⟩])).IsCachedPosition 7 = true ∧
    (freshDoubleCache.rounds ([⟨1000000, bufferOf [1, 2, 3], 3, []⟩] ++
      [⟨5, bufferOf [4, 5], 2, [IoOutcome.transfer 1]⟩,
        ⟨1000002, bufferOf [6], 1, []⟩])).IsCachedPosition 500 = false :=
  ⟨(alternating_windows 1000000 1000010 0 100 [⟨1000000, bufferOf [1, 2, 3], 3, []⟩]
      ⟨5, bufferOf [4, 5], 2, [IoOutcome.transfer 1]⟩ ⟨1000002, bufferOf [6], 1, []⟩
      (Or.inr (by decide))
      ⟨by decide, by decide, by decide, by decide, by decide, by decide, by decide, by decide,
        by decide, trivial⟩).2.1 1000002 (by decide) (by decide),
    (alternating_windows 1000000 1000010 0 100 [⟨1000000, bufferOf [1, 2, 3], 3, []⟩]
      ⟨5, bufferOf [4, 5], 2, [IoOutcome.transfer 1]⟩ ⟨1000002, bufferOf [6], 1, []⟩
      (Or.inr (by decide))
      ⟨by decide, by decide, by decide, by decide, by decide, by decide, by decide, by decide,
        by decide, trivial⟩).2.1 1000003 (by decide) (by decide),
    (alternating_windows 1000000 1000010 0 100 [⟨1000000, bufferOf [1, 2, 3], 3, []⟩]
      ⟨5, bufferOf [4, 5], 2, [IoOutcome.transfer 1]⟩ ⟨1000002, bufferOf [6], 1, []⟩
      (Or.inr (by decide))
      ⟨by decide, by decide, by decide, by decide, by decide, by decide, by decide, by decide,
        by decide, trivial⟩).2.2.1 5 (by decide) (by decide),
    (alternating_windows 1000000 1000010 0 100 [⟨1000000, bufferOf [1, 2, 3], 3, []⟩]
      ⟨5, bufferOf [4, 5], 2, [IoOutcome.transfer 1]⟩ ⟨1000002, bufferOf [6], 1, []⟩
      (Or.inr (by decide))
      ⟨by decide, by decide, by decide, by decide, by decide, by decide, by decide, by decide,
        by decide, trivial⟩).2.2.1 7 (by decide) (by decide),
    (alternating_windows 1000000 1000010 0 100 [⟨1000000, bufferOf [1, 2, 3], 3, []⟩]
      ⟨5, bufferOf [4, 5], 2, [IoOutcome.transfer 1]⟩ ⟨1000002, bufferOf [6], 1, []⟩
      (Or.inr (by decide))
      ⟨by decide, by decide, by decide, by decide, by decide, by decide, by decide, by decide,
        by decide, trivial⟩).2.2.2.2.2.2.2 500 (Or.inl (by decide)) (Or.inr (by decide))⟩

end CDoubleCache
end XFILE

/-! ## Coverage, the state machine, the probe and end-of-input of the Rotating Cache -/

namespace XFILE
namespace CSimpleFileCache

/-- The probe of a Basic Cache: the end of its data for a covered position, the
position itself otherwise. -/
theorem CachedDataEndPosIfSeekTo_eq (c : CSimpleFileCache) (p : Int) :
    c.CachedDataEndPosIfSeekTo p = if c.IsCachedPosition p = true then c.CachedDataEndPos else p := by
  by_cases h : p ≥ c.m_nStartPosition ∧ p ≤ c.m_nStartPosition + c.m_nWritePosition
  · have hc : c.IsCachedPosition p = true := by
      simp only [IsCachedPosition, Bool.and_eq_true, decide_eq_true_eq]; exact h
    simp only [CachedDataEndPosIfSeekTo, h, hc, and_self, if_true, CachedDataEndPos]
  · have hc : ¬ c.IsCachedPosition p = true := by
      simp only [IsCachedPosition, Bool.and_eq_true, decide_eq_true_eq]; exact h
    simp only [CachedDataEndPosIfSeekTo, h, hc, Bool.false_eq_true, if_false]

/-- After `Reset(p, false)` in which the storage layer rewinds the write handle,
the data ends where the probe said and the cache covers `p`. -/
theorem Reset_end (c : CSimpleFileCache) (p : Int) (okR : Bool) :
    (c.Reset p false true okR).2.CachedDataEndPos = c.CachedDataEndPosIfSeekTo p ∧
    (c.Reset p false true okR).2.IsCachedPosition p = true := by
  rw [CachedDataEndPosIfSeekTo_eq]
  by_cases h : c.IsCachedPosition p = true
  · rw [Reset_covered_eq c p true okR h]
    simp only [h, if_true]
    simp only [IsCachedPosition, Bool.and_eq_true, decide_eq_true_eq] at h
    have hn : ¬ p - c.m_nStartPosition < 0 := by omega
    simp only [physSeekRead, seekTarget, SEEK_SET, if_true, hn, or_false]
    cases okR <;> simp [CachedDataEndPos, IsCachedPosition, h]
  · have h' : c.IsCachedPosition p = false := by simpa using h
    simp only [h, if_false]
    have hc : (!false && c.IsCachedPosition p) = false := by simp [h']
    simp only [Reset, hc, Bool.false_eq_true, if_false, physSeekRead, physSeekWrite, seekTarget,
      SEEK_SET, if_true]
    cases okR <;> simp [CachedDataEndPos, IsCachedPosition]

end CSimpleFileCache

namespace CDoubleCache

open CSimpleFileCache

/-- C21: `IsCachedPosition(p)` of the rotating cache is true exactly when the
active cache or, when there is one, the previous cache covers `p`; a Basic Cache
answers the probe `CachedDataEndPosIfSeekTo(p)` with
`start_position + write_position` when it covers `p` and with `p` otherwise; the
rotating cache answers with the active cache's answer when there is no previous
cache and with the larger of the two answers when there is one; so its answer is
`p` when no cache covers `p`. -/
theorem coverage_is_union (d : CDoubleCache) (p : Int) :
    (d.IsCachedPosition p = true ↔
      (d.m_pCache.IsCachedPosition p = true ∨
        ∃ o, d.m_pCacheOld = some o ∧ o.IsCachedPosition p = true)) ∧
    (∀ c : CSimpleFileCache, c.IsCachedPosition p = true ↔
      (c.m_nStartPosition ≤ p ∧ p ≤ c.m_nStartPosition + c.m_nWritePosition)) ∧
    (∀ c : CSimpleFileCache, c.CachedDataEndPosIfSeekTo p =
      if c.m_nStartPosition ≤ p ∧ p ≤ c.m_nStartPosition + c.m_nWritePosition
      then c.m_nStartPosition + c.m_nWritePosition else p) ∧
    (d.m_pCacheOld = none →
      d.CachedDataEndPosIfSeekTo p = d.m_pCache.CachedDataEndPosIfSeekTo p) ∧
    (∀ o, d.m_pCacheOld = some o →
      d.CachedDataEndPosIfSeekTo p
        = max (d.m_pCache.CachedDataEndPosIfSeekTo p) (o.CachedDataEndPosIfSeekTo p)) ∧
    (d.IsCachedPosition p = false → d.CachedDataEndPosIfSeekTo p = p) := by
  have hbasic : ∀ c : CSimpleFileCache, c.IsCachedPosition p = true ↔
      (c.m_nStartPosition ≤ p ∧ p ≤ c.m_nStartPosition + c.m_nWritePosition) := by
    intro c
    simp only [CSimpleFileCache.IsCachedPosition, Bool.and_eq_true, decide_eq_true_eq, ge_iff_le]
  refine ⟨?_, hbasic, ?_, ?_, ?_, ?_⟩
  · cases hold : d.m_pCacheOld with
    | none => simp [IsCachedPosition, hold]
    | some o => simp [IsCachedPosition, hold]
  · intro c
    simp only [CSimpleFileCache.CachedDataEndPosIfSeekTo, ge_iff_le]
  · intro hold
    simp only [CachedDataEndPosIfSeekTo, hold]
  · intro o hold
    simp only [CachedDataEndPosIfSeekTo, hold]
  · intro hnot
    cases hold : d.m_pCacheOld with
    | none =>
      have h1 : d.m_pCache.IsCachedPosition p = false := by
        simpa [IsCachedPosition, hold] using hnot
      simp only [CachedDataEndPosIfSeekTo, hold, CachedDataEndPosIfSeekTo_eq, h1,
        Bool.false_eq_true, if_false]
    | some o =>
      have h1 : d.m_pCache.IsCachedPosition p = false ∧ o.IsCachedPosition p = false := by
        simpa [IsCachedPosition, hold] using hnot
      simp only [CachedDataEndPosIfSeekTo, hold, CachedDataEndPosIfSeekTo_eq, h1.1, h1.2,
        Bool.false_eq_true, if_false, max_self]

/-- One call keeps a previous cache that is there -/
theorem step_keeps_previous (d : CDoubleCache) (op : DoubleOp)
    (h : d.m_pCacheOld.isSome = true) : (d.step op).m_pCacheOld.isSome = true := by
  cases op with
  | reset pos clear openOk okW okR =>
    obtain ⟨o, ho⟩ := Option.isSome_iff_exists.mp h
    by_cases hs : d.staysPut pos clear = true
    · simp [step, Reset, hs, h]
    · have hs' : d.staysPut pos clear = false := by simpa using hs
      simp [step, Reset, hs', ho]
  | seek pos env ok =>
    by_cases hc : (!d.m_pCache.IsCachedPosition pos &&
        (match d.m_pCacheOld with
          | some old => old.IsCachedPosition pos
          | none => false)) = true
    · simp only [step, Seek, hc, if_true]; exact h
    · simp only [step, Seek]
      rw [if_neg hc]
      exact h
  | seekWrite pos whence ok => exact h
  | writeToCache p n s => exact h
  | readFromCache p n s => exact h
  | waitForData m t env => exact h
  | endOfInput => exact h
  | clearEndOfInput => exact h

/-- C22: the rotating cache holds one or two underlying caches, never more, and
once a previous cache exists it is still there after any sequence of `Reset`,
`Seek`, `SeekWrite`, `WriteToCache`, `ReadFromCache`, `WaitForData`, `EndOfInput`
and `ClearEndOfInput` calls, whatever the storage layer and the producer do. -/
theorem previous_persists (d : CDoubleCache) (ops : List DoubleOp)
    (h : d.m_pCacheOld.isSome = true) :
    (d.run ops).m_pCacheOld.isSome = true ∧
    (d.run ops).cacheCount = 2 ∧
    (∀ (d0 : CDoubleCache) (ops0 : List DoubleOp), (d0.run ops0).cacheCount ≤ 2) := by
  have hrun : ∀ (ops : List DoubleOp) (d : CDoubleCache), d.m_pCacheOld.isSome = true →
      (d.run ops).m_pCacheOld.isSome = true := by
    intro ops
    induction ops with
    | nil => intro d h; exact h
    | cons op ops ih =>
      intro d h
      exact ih (d.step op) (step_keeps_previous d op h)
  have hcount : ∀ d1 : CDoubleCache, d1.cacheCount ≤ 2 := by
    intro d1
    unfold cacheCount
    cases d1.m_pCacheOld <;> simp
  refine ⟨hrun ops d h, ?_, fun d0 ops0 => hcount _⟩
  obtain ⟨o, ho⟩ := Option.isSome_iff_exists.mp (hrun ops d h)
  simp [cacheCount, ho]

/-- Witness for C22: after a first rotation the rotating cache has a previous
cache; a reset that stays put, a reset that swaps, a seek, a write, a read,
end of input and its clearing leave one there. -/
theorem previous_persists_witness :
    (((freshDoubleCache.Reset 7 false true true true).2).run
      [DoubleOp.reset 7 false true true true, DoubleOp.reset 20 true false false false,
        DoubleOp.seek 20 [] true, DoubleOp.writeToCache (bufferOf [1, 2]) 2 [],
        DoubleOp.readFromCache (fun _ => 0) 1 [], DoubleOp.endOfInput,
        DoubleOp.clearEndOfInput]).m_pCacheOld.isSome = true :=
  (previous_persists (freshDoubleCache.Reset 7 false true true true).2
    [DoubleOp.reset 7 false true true true, DoubleOp.reset 20 true false false false,
      DoubleOp.seek 20 [] true, DoubleOp.writeToCache (bufferOf [1, 2]) 2 [],
      DoubleOp.readFromCache (fun _ => 0) 1 [], DoubleOp.endOfInput,
      DoubleOp.clearEndOfInput] rfl).1

end CDoubleCache
end XFILE

namespace XFILE
namespace CDoubleCache

open CSimpleFileCache

/-- C23: for every rotating cache and every position `p`, with the storage
layer rewinding the write handle of the cache that is reset, the value
`CachedDataEndPosIfSeekTo(p)` before `Reset(p, false)` is `CachedDataEndPos()`
after it, and after it the active cache covers `p`: on the stay-put path, on the
first rotation, when `Open()` fails, and on the reuse-and-swap path. -/
theorem probe_predicts_reset (d : CDoubleCache) (p : Int) (openOk okR : Bool) :
    (d.Reset p false openOk true okR).2.CachedDataEndPos = d.CachedDataEndPosIfSeekTo p ∧
    (d.Reset p false openOk true okR).2.m_pCache.IsCachedPosition p = true := by
  have hend : ∀ c : CSimpleFileCache, c.IsCachedPosition p = true → p ≤ c.CachedDataEndPos := by
    intro c hc
    simp only [CSimpleFileCache.IsCachedPosition, Bool.and_eq_true, decide_eq_true_eq] at hc
    exact hc.2
  by_cases hs : d.staysPut p false = true
  · obtain ⟨hcov, hold⟩ := (staysPut_iff d p).mp hs
    have hR : d.Reset p false openOk true okR
        = ((d.m_pCache.Reset p false true okR).1,
            { d with m_pCache := (d.m_pCache.Reset p false true okR).2 }) := by
      simp only [Reset, hs, if_true]
    rw [hR]
    refine ⟨?_, (Reset_end d.m_pCache p okR).2⟩
    show (d.m_pCache.Reset p false true okR).2.CachedDataEndPos = d.CachedDataEndPosIfSeekTo p
    rw [(Reset_end d.m_pCache p okR).1]
    rcases hold with hold | ⟨o, hold, ho⟩
    · simp only [CachedDataEndPosIfSeekTo, hold]
    · simp only [CachedDataEndPosIfSeekTo, hold]
      rw [CachedDataEndPosIfSeekTo_eq d.m_pCache, CachedDataEndPosIfSeekTo_eq o]
      simp only [hcov, if_true]
      have hA := hend d.m_pCache hcov
      rcases ho with ho | ho
      · simp only [ho, Bool.false_eq_true, if_false]
        exact (max_eq_left hA).symm
      · by_cases hoc : o.IsCachedPosition p = true
        · simp only [hoc, if_true]
          exact (max_eq_left ho).symm
        · have hoc' : o.IsCachedPosition p = false := by simpa using hoc
          simp only [hoc', Bool.false_eq_true, if_false]
          exact (max_eq_left hA).symm
  · have hs' : d.staysPut p false = false := by simpa using hs
    cases hold : d.m_pCacheOld with
    | none =>
      have hncov : d.m_pCache.IsCachedPosition p = false := by
        have := (staysPut_iff d p).not.mp hs
        by_contra hc
        have hc' : d.m_pCache.IsCachedPosition p = true := by simpa using hc
        exact this ⟨hc', Or.inl hold⟩
      have hprobe : d.CachedDataEndPosIfSeekTo p = p := by
        simp only [CachedDataEndPosIfSeekTo, hold, CachedDataEndPosIfSeekTo_eq, hncov,
          Bool.false_eq_true, if_false]
      rw [hprobe]
      cases openOk with
      | false =>
        have hR : d.Reset p false false true okR
            = ((d.m_pCache.Reset p false true okR).1,
                { d with m_pCache := (d.m_pCache.Reset p false true okR).2 }) := by
          simp [Reset, hs', hold]
        rw [hR]
        refine ⟨?_, (Reset_end d.m_pCache p okR).2⟩
        show (d.m_pCache.Reset p false true okR).2.CachedDataEndPos = p
        rw [(Reset_end d.m_pCache p okR).1, CachedDataEndPosIfSeekTo_eq]
        simp only [hncov, Bool.false_eq_true, if_false]
      | true =>
        have hR : d.Reset p false true true okR
            = ((freshCache.Reset p false true okR).1,
                ⟨(freshCache.Reset p false true okR).2, some d.m_pCache⟩) := by
          simp [Reset, hs', hold]
        rw [hR]
        refine ⟨?_, (Reset_end freshCache p okR).2⟩
        show (freshCache.Reset p false true okR).2.CachedDataEndPos = p
        rw [(Reset_end freshCache p okR).1, CachedDataEndPosIfSeekTo_eq]
        by_cases hf : freshCache.IsCachedPosition p = true
        · simp only [hf, if_true]
          simp only [CSimpleFileCache.IsCachedPosition, Bool.and_eq_true, decide_eq_true_eq] at hf
          have e1 : freshCache.m_nStartPosition = 0 := rfl
          have e2 : freshCache.m_nWritePosition = 0 := rfl
          have e3 : freshCache.CachedDataEndPos = 0 := rfl
          rw [e1, e2] at hf
          rw [e3]
          omega
        · simp only [hf, Bool.false_eq_true, if_false]
    | some o =>
      have hR : d.Reset p false openOk true okR
          = ((o.Reset p false true okR).1, ⟨(o.Reset p false true okR).2, some d.m_pCache⟩) := by
        simp [Reset, hs', hold]
      rw [hR]
      refine ⟨?_, (Reset_end o p okR).2⟩
      show (o.Reset p false true okR).2.CachedDataEndPos = d.CachedDataEndPosIfSeekTo p
      rw [(Reset_end o p okR).1]
      simp only [CachedDataEndPosIfSeekTo, hold]
      rw [CachedDataEndPosIfSeekTo_eq d.m_pCache, CachedDataEndPosIfSeekTo_eq o]
      have hnot := (staysPut_iff d p).not.mp hs
      by_cases hcov : d.m_pCache.IsCachedPosition p = true
      · have ho : o.IsCachedPosition p = true ∧ d.m_pCache.CachedDataEndPos < o.CachedDataEndPos := by
          by_contra hcon
          apply hnot
          refine ⟨hcov, Or.inr ⟨o, hold, ?_⟩⟩
          by_cases hoc : o.IsCachedPosition p = true
          · right
            by_contra hlt
            exact hcon ⟨hoc, by omega⟩
          · left; simpa using hoc
        simp only [hcov, ho.1, if_true]
        exact (max_eq_right (le_of_lt ho.2)).symm
      · have hcov' : d.m_pCache.IsCachedPosition p = false := by simpa using hcov
        simp only [hcov', Bool.false_eq_true, if_false]
        by_cases hoc : o.IsCachedPosition p = true
        · simp only [hoc, if_true]
          exact (max_eq_right (hend o hoc)).symm
        · have hoc' : o.IsCachedPosition p = false := by simpa using hoc
          simp only [hoc', Bool.false_eq_true, if_false, max_self]

/-- C24: `Reset` of a Basic Cache leaves its end-of-input flag as it was; the
rotating cache's `EndOfInput`, `IsEndOfInput` and `ClearEndOfInput` are those of
the active cache and leave the previous cache alone; so when `EndOfInput()` was
called on a rotating cache with no previous cache and a `Reset` then promotes a
freshly opened cache, `IsEndOfInput()` is false, the flag is still set on the
demoted cache, and, the storage layer performing the seeks, a following
`ReadFromCache` returns the would-block code without a physical read. -/
theorem end_of_input_follows_active (d : CDoubleCache) (p : Int) (clearAnyway okW okR : Bool)
    (pBuffer : Buffer) (iMaxSize : Nat) (script : List IoOutcome)
    (hnone : d.m_pCacheOld = none)
    (h : clearAnyway = true ∨ d.m_pCache.IsCachedPosition p = false) :
    (∀ (c : CSimpleFileCache) (q : Int) (b ow orr : Bool),
      (c.Reset q b ow orr).2.m_bEndOfInput = c.m_bEndOfInput) ∧
    (∀ d0 : CDoubleCache, d0.EndOfInput.m_pCache = d0.m_pCache.EndOfInput ∧
      d0.EndOfInput.m_pCacheOld = d0.m_pCacheOld ∧
      d0.ClearEndOfInput.m_pCache = d0.m_pCache.ClearEndOfInput ∧
      d0.ClearEndOfInput.m_pCacheOld = d0.m_pCacheOld ∧
      d0.IsEndOfInput = d0.m_pCache.m_bEndOfInput) ∧
    d.EndOfInput.IsEndOfInput = true ∧
    (d.EndOfInput.Reset p clearAnyway true okW okR).2.IsEndOfInput = false ∧
    (d.EndOfInput.Reset p clearAnyway true okW okR).2.m_pCacheOld = some d.m_pCache.EndOfInput ∧
    d.m_pCache.EndOfInput.m_bEndOfInput = true ∧
    (((d.EndOfInput.Reset p clearAnyway true true true).2.ReadFromCache pBuffer iMaxSize
      script).1.ret = CACHE_RC_WOULD_BLOCK) ∧
    (((d.EndOfInput.Reset p clearAnyway true true true).2.ReadFromCache pBuffer iMaxSize
      script).1.calls = []) := by
  have hreset : ∀ (c : CSimpleFileCache) (q : Int) (b ow orr : Bool),
      (c.Reset q b ow orr).2.m_bEndOfInput = c.m_bEndOfInput := by
    intro c q b ow orr
    by_cases hc : (!b && c.IsCachedPosition q) = true
    · simp only [CSimpleFileCache.Reset, hc, if_true, physSeekRead]
      split_ifs <;> rfl
    · have hc' : (!b && c.IsCachedPosition q) = false := by simpa using hc
      simp only [CSimpleFileCache.Reset, hc', Bool.false_eq_true, if_false, physSeekRead,
        physSeekWrite]
      split_ifs <;> rfl
  have hs : d.EndOfInput.staysPut p clearAnyway = false := by
    unfold staysPut
    have e1 : d.EndOfInput.m_pCache.IsCachedPosition p = d.m_pCache.IsCachedPosition p := rfl
    rw [e1]
    rcases h with h | h
    · rw [h]; rfl
    · rw [h]; simp
  have hold : d.EndOfInput.m_pCacheOld = none := hnone
  have key : ∀ ow orr : Bool, d.EndOfInput.Reset p clearAnyway true ow orr
      = ((freshCache.Reset p clearAnyway ow orr).1,
          ⟨(freshCache.Reset p clearAnyway ow orr).2, some d.m_pCache.EndOfInput⟩) := by
    intro ow orr
    simp [Reset, hs, hold]
    rfl
  have hfresh := freshCache_Reset p clearAnyway
  have hread : ((freshCache.Reset p clearAnyway true true).2.ReadFromCache pBuffer iMaxSize script)
      = ⟨CACHE_RC_WOULD_BLOCK, (freshCache.Reset p clearAnyway true true).2, pBuffer, []⟩ := by
    have hav : (freshCache.Reset p clearAnyway true true).2.GetAvailableRead ≤ 0 := by
      show (freshCache.Reset p clearAnyway true true).2.m_nWritePosition
        - (freshCache.Reset p clearAnyway true true).2.m_nReadPosition ≤ 0
      rw [hfresh.2.1, hfresh.2.2]
      decide
    have heoi : (freshCache.Reset p clearAnyway true true).2.m_bEndOfInput = false :=
      hreset freshCache p clearAnyway true true
    simp [CSimpleFileCache.ReadFromCache, hav, heoi]
  refine ⟨hreset, fun d0 => ⟨rfl, rfl, rfl, rfl, rfl⟩, rfl, ?_, ?_, rfl, ?_, ?_⟩
  · rw [key okW okR]
    exact hreset freshCache p clearAnyway okW okR
  · rw [key okW okR]
  · rw [key true true]
    show ((freshCache.Reset p clearAnyway true true).2.ReadFromCache pBuffer iMaxSize script).ret
      = CACHE_RC_WOULD_BLOCK
    rw [hread]
  · rw [key true true]
    show ((freshCache.Reset p clearAnyway true true).2.ReadFromCache pBuffer iMaxSize script).calls
      = []
    rw [hread]

/-- Witness for C24: end of input is signalled on a fresh rotating cache, which
is then reset to position 7. -/
theorem end_of_input_follows_active_witness :
    (freshDoubleCache.EndOfInput.Reset 7 false true true true).2.IsEndOfInput = false ∧
    (((freshDoubleCache.EndOfInput.Reset 7 false true true true).2.ReadFromCache (fun _ => 0) 10
      []).1.ret = CACHE_RC_WOULD_BLOCK) :=
  ⟨(end_of_input_follows_active freshDoubleCache 7 false true true (fun _ => 0) 10 [] rfl
      (Or.inr (by decide))).2.2.2.1,
    (end_of_input_follows_active freshDoubleCache 7 false true true (fun _ => 0) 10 [] rfl
      (Or.inr (by decide))).2.2.2.2.2.2.1⟩

end CDoubleCache
end XFILE
